import Mathlib

/-!
# Verification of the multi-strategy chunking engine

Shallow embedding of `app/vectorization/chunking.py` (repository
`CY202227/File_read_system`).  Python strings are modelled as `String` /
`List Char`, Python `int` as `Int`, and float-valued configuration knobs as
`ℚ` (exact arithmetic stands in for IEEE floats; no settled claim depends on
float rounding).  The injected `AIClient` (network collaborator) is modelled
as a structure of abstract functions; embedding vectors live in an abstract
type `V` with an abstract similarity function standing for the float-valued
`_cosine_similarity`.

Python `while` loops whose cursor can advance by more than one element per
iteration are embedded with an explicit `fuel` argument (structural recursion,
so that every definition evaluates by kernel reduction); each wrapper passes
the length of the scanned sequence, which the loop can never exhaust since
every iteration consumes at least one element.
-/

namespace Chunking

/-- Python whitespace test: the ASCII characters matched by `\s` and stripped
by `str.strip()`.  (Exotic Unicode whitespace is not modelled; no input in
this development contains any.) -/
def isPyWs (c : Char) : Bool :=
  c == ' ' || c == '\t' || c == '\n' || c == '\r' || c == '\x0b' || c == '\x0c'

/-- `str.strip()` on character lists. -/
def stripL (cs : List Char) : List Char :=
  ((cs.dropWhile isPyWs).reverse.dropWhile isPyWs).reverse

/-- Model of Python `str.strip()`. -/
def pyStrip (s : String) : String := ⟨stripL s.toList⟩

/-- Python substring test `pat in hay` on character lists. -/
def containsSub (hay pat : List Char) : Bool :=
  if pat.isPrefixOf hay then true
  else
    match hay with
    | [] => false
    | _ :: t => containsSub t pat

/-- Python `pat in hay` on strings. -/
def pyContains (hay pat : String) : Bool := containsSub hay.toList pat.toList

/-- The scan of Python `str.split(sep)` for non-empty `sep`: left to right,
non-overlapping occurrences; `acc` is the current piece, reversed. -/
def splitOnStrGo (sep : List Char) : Nat → List Char → List Char → List (List Char)
  | 0, acc, s => [acc.reverse ++ s]
  | fuel + 1, acc, s =>
      if sep.isPrefixOf s then
        acc.reverse :: splitOnStrGo sep fuel [] (s.drop sep.length)
      else
        match s with
        | [] => [acc.reverse]
        | c :: t => splitOnStrGo sep fuel (c :: acc) t

/-- Model of Python `text.split(sep)` for non-empty `sep` (the only way the
source calls it); for `sep = ""` (which raises in Python) we return `[text]`,
a case no caller reaches. -/
def pySplit (text sep : String) : List String :=
  if sep.toList.isEmpty then [text]
  else (splitOnStrGo sep.toList (text.toList.length + 1) [] text.toList).map (⟨·⟩)

/-- Model of Python `str.splitlines()` (line breaks `\n`, `\r\n`, `\r`;
the exotic Unicode line breaks are not modelled). -/
def splitlinesGo (acc : List Char) : List Char → List (List Char)
  | [] => [acc.reverse]
  | '\r' :: '\n' :: t =>
      acc.reverse :: (if t.isEmpty then [] else splitlinesGo [] t)
  | '\n' :: t => acc.reverse :: (if t.isEmpty then [] else splitlinesGo [] t)
  | '\r' :: t => acc.reverse :: (if t.isEmpty then [] else splitlinesGo [] t)
  | c :: t => splitlinesGo (c :: acc) t

/-- Python `text.splitlines()`. -/
def pySplitlines (s : String) : List String :=
  if s.toList.isEmpty then [] else (splitlinesGo [] s.toList).map (⟨·⟩)

/-- `"\n".join(lines)`. -/
def joinLines (lines : List String) : String :=
  String.intercalate "\n" lines

/-- `dataclass ChunkingConfig` with the defaults from `config/settings.py`
(`DEFAULT_CHUNK_SIZE = 1000`, `DEFAULT_CHUNK_OVERLAP = 200`). -/
structure ChunkingConfig where
  chunk_size : Int := 1000
  chunk_overlap : Int := 200
  separators : List String := ["\n\n", "\n", ", ", " "]
deriving Repr, DecidableEq

/-! ## `_windowed` and `_windowed_no_overlap` -/

/-- The `while start < n` loop of `_windowed` on the remaining suffix: each
iteration emits `text[start:start+size]` and advances `start` by
`size - overlap`.  Fuel: after the caller's clamp `overlap <= size - 1`, each
iteration consumes at least one character, so fuel = length suffices. -/
def windowedGo (size ov : Int) : Nat → List Char → List (List Char)
  | 0, _ => []
  | fuel + 1, s =>
      if s.length = 0 then []
      else if (s.length : Int) ≤ size then [s]
      else s.take size.toNat :: windowedGo size ov fuel (s.drop (size - ov).toNat)

/-- `_windowed(text, size, overlap)`: `size <= 0` returns the whole text;
`overlap >= size` is clamped to `max(0, size - 1)`; then the right-sliding
window loop runs. -/
def _windowed (text : String) (size overlap : Int) : List String :=
  if size ≤ 0 then [text]
  else
    (windowedGo size (if overlap ≥ size then max 0 (size - 1) else overlap)
      text.toList.length text.toList).map (⟨·⟩)

/-- `_windowed_no_overlap(text, size)`: same loop with `start = end`, i.e. the
window loop with overlap `0`. -/
def _windowed_no_overlap (text : String) (size : Int) : List String :=
  if size ≤ 0 then [text]
  else (windowedGo size 0 text.toList.length text.toList).map (⟨·⟩)

/-! ## Overlap-stripping reconstruction (spec §8, claims C1/C5) -/

/-- Concatenate chunks, stripping the intentional `ov`-character overlap prefix
from every chunk after the first. -/
def joinStripL (ov : Nat) : List (List Char) → List Char
  | [] => []
  | c :: cs => c ++ (cs.map (List.drop ov)).flatten

/-- String version of `joinStripL`. -/
def stripOverlapJoin (ov : Nat) (chunks : List String) : String :=
  ⟨joinStripL ov (chunks.map String.toList)⟩

theorem windowedGo_join_drop (size ov : Int) (h1 : 0 < ov) (h2 : ov < size) :
    ∀ (fuel : Nat) (s : List Char), s.length ≤ fuel →
    ((windowedGo size ov fuel s).map (List.drop ov.toNat)).flatten
      = s.drop ov.toNat := by
  intro fuel
  induction fuel with
  | zero =>
      intro s hs
      have h : s = [] := List.length_eq_zero.mp (Nat.le_zero.mp hs)
      subst h
      simp [windowedGo]
  | succ n ih =>
      intro s hs
      show (List.map _ (if s.length = 0 then [] else _)).flatten = _
      by_cases h0 : s.length = 0
      · rw [if_pos h0]
        simp [List.length_eq_zero.mp h0]
      · rw [if_neg h0]
        by_cases hle : (s.length : Int) ≤ size
        · rw [if_pos hle]
          simp
        · rw [if_neg hle]
          have hrec : (s.drop (size - ov).toNat).length ≤ n := by
            simp only [List.length_drop]
            omega
          simp only [List.map_cons, List.flatten_cons, ih _ hrec]
          have h3 : (s.take size.toNat).drop ov.toNat
              = (s.drop ov.toNat).take ((size - ov).toNat) := by
            rw [List.drop_take]
            congr 1
            omega
          have h4 : (s.drop ((size - ov).toNat)).drop ov.toNat
              = (s.drop ov.toNat).drop ((size - ov).toNat) := by
            rw [List.drop_drop, List.drop_drop]
            congr 1
            omega
          rw [h3, h4, List.take_append_drop]

theorem windowedGo_reconstruct (size ov : Int) (h1 : 0 < ov) (h2 : ov < size)
    (fuel : Nat) (s : List Char) (hs : s.length ≤ fuel) :
    joinStripL ov.toNat (windowedGo size ov fuel s) = s := by
  cases fuel with
  | zero =>
      have h : s = [] := List.length_eq_zero.mp (Nat.le_zero.mp hs)
      subst h
      simp [windowedGo, joinStripL]
  | succ n =>
      show joinStripL ov.toNat (if s.length = 0 then [] else _) = s
      by_cases h0 : s.length = 0
      · rw [if_pos h0]
        simp [List.length_eq_zero.mp h0, joinStripL]
      · rw [if_neg h0]
        by_cases hle : (s.length : Int) ≤ size
        · rw [if_pos hle]
          simp [joinStripL]
        · rw [if_neg hle]
          show s.take size.toNat ++ _ = s
          have hrec : (s.drop (size - ov).toNat).length ≤ n := by
            simp only [List.length_drop]
            omega
          rw [windowedGo_join_drop size ov h1 h2 n _ hrec, List.drop_drop]
          have hq : (size - ov).toNat + ov.toNat = size.toNat := by omega
          rw [hq]
          exact List.take_append_drop _ _

theorem windowedGo_length_le (size ov : Int) (hsz : 0 < size) :
    ∀ (fuel : Nat) (s : List Char),
    ∀ c ∈ windowedGo size ov fuel s, (c.length : Int) ≤ size := by
  intro fuel
  induction fuel with
  | zero => intro s c hc; simp [windowedGo] at hc
  | succ n ih =>
      intro s c hc
      rw [show windowedGo size ov (n + 1) s
          = if s.length = 0 then [] else _ from rfl] at hc
      by_cases h0 : s.length = 0
      · rw [if_pos h0] at hc
        simp at hc
      · rw [if_neg h0] at hc
        by_cases hle : (s.length : Int) ≤ size
        · rw [if_pos hle] at hc
          simp at hc
          subst hc
          exact hle
        · rw [if_neg hle] at hc
          rcases List.mem_cons.mp hc with rfl | hc
          · have : (s.take size.toNat).length ≤ size.toNat := by
              simp [List.length_take]
            omega
          · exact ih _ c hc

/-! ## `_split_on_separators` -/

/-- The scan of `re.split("(" + pattern + ")", text)` where `pattern` is the
alternation of the escaped non-empty separators.  At each position the
alternatives are tried in list order (Python `re` is leftmost-earliest); a hit
cuts the running piece, emits the matched separator, and resumes after it.
The `!sep.isEmpty` conjunct is redundant (the alternation is built from the
separators pre-filtered by `if sep`); it guards the scan against a zero-width
match just as the regex cannot produce one. -/
def reSplitGo (seps : List (List Char)) : Nat → List Char → List Char →
    List (List Char)
  | 0, acc, s => [acc.reverse ++ s]
  | fuel + 1, acc, s =>
      match s with
      | [] => [acc.reverse]
      | c :: t =>
        match seps.find? (fun sep => !sep.isEmpty && sep.isPrefixOf (c :: t)) with
        | some sep =>
            acc.reverse :: sep :: reSplitGo seps fuel [] ((c :: t).drop sep.length)
        | none => reSplitGo seps fuel (c :: acc) t

/-- `re.fullmatch(pattern, part)`: with an alternation of literal separators,
a full match holds exactly when the part equals one of them. -/
def isSepPart (seps : List (List Char)) (p : List Char) : Bool := seps.contains p

/-- The "re-attach delimiters" merge loop of `_split_on_separators`
(chunking.py lines 65-79), with `buffer` carried through. -/
def mergeGo (seps : List (List Char)) (keep : Bool) (buffer : List Char) :
    List (List Char) → List (List Char)
  | [] => if buffer ≠ [] ∧ keep then [buffer] else []
  | p :: rest =>
      if isSepPart seps p then
        mergeGo seps keep (if keep then buffer ++ p else buffer) rest
      else
        if buffer ≠ [] ∧ keep then (p ++ buffer) :: mergeGo seps keep [] rest
        else if p ≠ [] then p :: mergeGo seps keep buffer rest
        else mergeGo seps keep buffer rest

/-- `_split_on_separators(text, separators, keep_delimiters)`. -/
def _split_on_separators (text : String) (separators : List String)
    (keep_delimiters : Bool) : List String :=
  if separators.isEmpty then [text]
  else
    let seps := (separators.map String.toList).filter (fun sep => !sep.isEmpty)
    if seps.isEmpty then [text]
    else
      ((mergeGo seps keep_delimiters []
          (reSplitGo seps (text.toList.length + 1) [] text.toList)).filter
        (fun p => !p.isEmpty)).map (⟨·⟩)

/-! ## `_by_max_tokens` -/

/-- Python slice `s[-n:]` for `n > 0`. -/
def takeRightStr (s : String) (n : Int) : String :=
  ⟨s.toList.drop (s.toList.length - n.toNat)⟩

/-- The accumulation loop of `_by_max_tokens`: state is the emitted `chunks`,
the running `buf` (in order) and `token_count`; `chunks[-1]` is the last
emitted chunk. -/
def byMaxTokensGo (size overlap : Int) (chunks buf : List String)
    (token_count : Int) : List String → List String
  | [] =>
      if !buf.isEmpty then
        chunks ++ (if overlap > 0 then _windowed (String.join buf) size overlap
                   else _windowed_no_overlap (String.join buf) size)
      else chunks
  | part :: rest =>
      let length : Int := (part.length : Int)
      if (token_count + length > size) && !buf.isEmpty then
        let chunks2 := chunks ++
          (if overlap > 0 then _windowed (String.join buf) size overlap
           else _windowed_no_overlap (String.join buf) size)
        if overlap > 0 && !chunks2.isEmpty then
          let tail := takeRightStr (chunks2.getLastD "") overlap
          byMaxTokensGo size overlap chunks2 [tail, part]
            ((tail.length : Int) + length) rest
        else
          byMaxTokensGo size overlap chunks2 [part] length rest
      else
        byMaxTokensGo size overlap chunks (buf ++ [part])
          (token_count + length) rest

/-- `_by_max_tokens(texts, size=size, overlap=overlap)`. -/
def _by_max_tokens (texts : List String) (size overlap : Int) : List String :=
  byMaxTokensGo size overlap [] [] 0 texts

/-! ## Level 1 and Level 2 -/

/-- `level1_character_splitting(text, config)`. -/
def level1_character_splitting (text : String)
    (config : Option ChunkingConfig := none) : List String :=
  let cfg := config.getD {}
  _windowed text cfg.chunk_size cfg.chunk_overlap

/-- `level2_recursive_character_splitting(text, config)`: delimiters are kept
only when `chunk_overlap > 0`. -/
def level2_recursive_character_splitting (text : String)
    (config : Option ChunkingConfig := none) : List String :=
  let cfg := config.getD {}
  let keep_delimiters := decide (cfg.chunk_overlap > 0)
  _by_max_tokens (_split_on_separators text cfg.separators keep_delimiters)
    cfg.chunk_size cfg.chunk_overlap

theorem toList_map_mk (l : List (List Char)) :
    (l.map (fun cs => (⟨cs⟩ : String))).map String.toList = l := by
  rw [List.map_map]
  have h : String.toList ∘ (fun cs => (⟨cs⟩ : String)) = id := funext (fun _ => rfl)
  rw [h, List.map_id]

/-! ## Claim C5: `_windowed` boundary behaviour -/

/-- **C5.** `_windowed(text, size, overlap)`: if `size <= 0` the result is the
whole text as a single chunk; if `overlap >= size > 0` the overlap is clamped
to `size - 1` before windowing (so the result equals windowing with overlap
`size - 1`); and (the function being total by construction, hence
terminating) every produced chunk has length at most `size`. -/
theorem C5_windowed_clamp_and_bound (text : String) (size overlap : Int) :
    (size ≤ 0 → _windowed text size overlap = [text]) ∧
    (0 < size → size ≤ overlap →
      _windowed text size overlap = _windowed text size (size - 1)) ∧
    (0 < size → ∀ c ∈ _windowed text size overlap, (c.length : Int) ≤ size) := by
  refine ⟨fun h => ?_, fun hs hov => ?_, fun hs c hc => ?_⟩
  · rw [_windowed, if_pos h]
  · have h0 : ¬ size ≤ 0 := by omega
    rw [_windowed, _windowed, if_neg h0, if_neg h0]
    have h1 : (if overlap ≥ size then max 0 (size - 1) else overlap)
        = (if size - 1 ≥ size then max 0 (size - 1) else size - 1) := by
      rw [if_pos (by omega), if_neg (by omega)]
      omega
    rw [h1]
  · have h0 : ¬ size ≤ 0 := by omega
    rw [_windowed, if_neg h0] at hc
    rcases List.mem_map.mp hc with ⟨cs, hcs, rfl⟩
    exact windowedGo_length_le size _ hs _ _ cs hcs

/-- Witness for C5 at `text = "abcde"`, `size = 3`, `overlap = 5`. -/
theorem C5_witness :
    _windowed "abcde" 3 5 = _windowed "abcde" 3 (3 - 1) ∧
    ∀ c ∈ _windowed "abcde" 3 5, (c.length : Int) ≤ 3 :=
  ⟨(C5_windowed_clamp_and_bound "abcde" 3 5).2.1 (by decide) (by decide),
   (C5_windowed_clamp_and_bound "abcde" 3 5).2.2 (by decide)⟩

/-! ## Claim C1: overlap-stripped reconstruction -/

/-- **C1 (amended to `character_splitting` only).** For every text and every
configuration with `0 < chunk_overlap < chunk_size`, concatenating the chunks
of `level1_character_splitting` with the `chunk_overlap`-character overlap
prefix stripped from every chunk after the first reconstructs the input
exactly. -/
theorem C1_character_splitting_reconstructs (text : String) (cfg : ChunkingConfig)
    (h1 : 0 < cfg.chunk_overlap) (h2 : cfg.chunk_overlap < cfg.chunk_size) :
    stripOverlapJoin cfg.chunk_overlap.toNat
      (level1_character_splitting text (some cfg)) = text := by
  have h0 : ¬ cfg.chunk_size ≤ 0 := by omega
  have hcl : ¬ cfg.chunk_overlap ≥ cfg.chunk_size := by omega
  rw [level1_character_splitting]
  show stripOverlapJoin _ (_windowed text cfg.chunk_size cfg.chunk_overlap) = text
  rw [_windowed, if_neg h0, if_neg hcl, stripOverlapJoin, toList_map_mk,
    windowedGo_reconstruct _ _ h1 h2 _ _ (le_refl _)]
  rfl

/-- Witness for C1's amended theorem: window `"abcdefghij"` with size 4,
overlap 1. -/
theorem C1_witness :
    stripOverlapJoin (1 : Int).toNat
      (level1_character_splitting "abcdefghij"
        (some { chunk_size := 4, chunk_overlap := 1 })) = "abcdefghij" :=
  C1_character_splitting_reconstructs "abcdefghij"
    { chunk_size := 4, chunk_overlap := 1 } (by decide) (by decide)

/-- **C1 counterexample.** For `recursive_character_splitting` the claim
fails: with the default separators, `chunk_size = 10`, `chunk_overlap = 1`
(so `0 < overlap < size`), the input `"a b"` produces the single chunk
`"ab "` — the separator-merge loop of `_split_on_separators` attaches the
space after the *following* segment, so no overlap-stripped concatenation of
the output can reconstruct `"a b"`. -/
theorem C1_counterexample :
    level2_recursive_character_splitting "a b"
        (some { chunk_size := 10, chunk_overlap := 1 }) = ["ab "] ∧
    stripOverlapJoin (1 : Int).toNat
      (level2_recursive_character_splitting "a b"
        (some { chunk_size := 10, chunk_overlap := 1 })) ≠ "a b" := by
  constructor
  · rfl
  · decide

/-! ## Claim C4: delimiter attachment in `_split_on_separators` -/

/-- The effective separator alternation of `_split_on_separators`: the
non-empty separators, as character lists
(`[re.escape(sep) for sep in separators if sep]`). -/
def effSeps (separators : List String) : List (List Char) :=
  (separators.map String.toList).filter (fun sep => !sep.isEmpty)

/-- The part list `re.split("(" + pattern + ")", text)` hands to the merge
loop of `_split_on_separators`. -/
def reSplitParts (text : String) (separators : List String) :
    List (List Char) :=
  reSplitGo (effSeps separators) (text.toList.length + 1) [] text.toList

/-- Separator-run attachment, written from the (amended) claim's words: each
maximal run of separator occurrences is glued to the END of the part that
FOLLOWS the run; a run followed by an empty part or by the end of the input
becomes a standalone piece; empty non-separator parts are dropped.
Fuel-based (`fuel > parts.length` suffices). -/
def attachSpec (seps : List (List Char)) :
    Nat → List (List Char) → List (List Char)
  | 0, _ => []
  | _ + 1, [] => []
  | fuel + 1, p :: rest =>
      if isSepPart seps p then
        match (p :: rest).dropWhile (isSepPart seps) with
        | [] => [((p :: rest).takeWhile (isSepPart seps)).flatten]
        | q :: rest3 =>
            (q ++ ((p :: rest).takeWhile (isSepPart seps)).flatten)
              :: attachSpec seps fuel rest3
      else if p.isEmpty then attachSpec seps fuel rest
      else p :: attachSpec seps fuel rest

/-- `attachSpec` with enough fuel. -/
def attachToFollowing (seps : List (List Char)) (parts : List (List Char)) :
    List (List Char) :=
  attachSpec seps (parts.length + 1) parts

/-- A part the alternation fully matches is one of the (non-empty)
separators. -/
theorem sep_ne_nil_of_isSepPart (seps : List (List Char))
    (hseps : ∀ s ∈ seps, s ≠ []) (p : List Char)
    (h : isSepPart seps p = true) : p ≠ [] := by
  have hp : p ∈ seps := by simpa [isSepPart] using h
  exact hseps p hp

/-- With a non-empty pending buffer, the merge loop flushes the buffer
(extended by the next run of separator parts) onto the end of the next
non-separator part — or standalone at the end of the input. -/
theorem mergeGo_keep_pending (seps : List (List Char)) :
    ∀ (parts : List (List Char)) (b : List Char), b ≠ [] →
      mergeGo seps true b parts
        = match parts.dropWhile (isSepPart seps) with
          | [] => [b ++ (parts.takeWhile (isSepPart seps)).flatten]
          | q :: rest3 =>
              (q ++ (b ++ (parts.takeWhile (isSepPart seps)).flatten))
                :: mergeGo seps true [] rest3 := by
  intro parts
  induction parts with
  | nil =>
      intro b hb
      simp [mergeGo, hb]
  | cons p rest ih =>
      intro b hb
      by_cases hsep : isSepPart seps p = true
      · rw [mergeGo, if_pos hsep]
        have hbp : b ++ p ≠ [] := by
          intro hc
          exact hb (List.append_eq_nil.mp hc).1
        rw [show (if (true : Bool) then b ++ p else b) = b ++ p from rfl]
        rw [ih (b ++ p) hbp]
        rw [List.dropWhile_cons_of_pos hsep, List.takeWhile_cons_of_pos hsep]
        cases hdw : rest.dropWhile (isSepPart seps) with
        | nil => simp [List.append_assoc]
        | cons q r3 => simp [List.append_assoc]
      · rw [mergeGo, if_neg hsep, if_pos ⟨hb, rfl⟩]
        rw [List.dropWhile_cons_of_neg hsep, List.takeWhile_cons_of_neg hsep]
        simp

/-- `dropWhile` never lengthens a list. -/
theorem length_dropWhile_le_parts (p : List Char → Bool) :
    ∀ l : List (List Char), (l.dropWhile p).length ≤ l.length := by
  intro l
  induction l with
  | nil => simp
  | cons a t ih =>
      by_cases hp : p a = true
      · rw [List.dropWhile_cons_of_pos hp]
        exact Nat.le_succ_of_le ih
      · rw [List.dropWhile_cons_of_neg hp]

/-- **Merge loop with `keep_delimiters = True`** started with an empty
buffer computes exactly the claimed attachment of separator runs to the
following part. -/
theorem mergeGo_keep_spec (seps : List (List Char))
    (hseps : ∀ s ∈ seps, s ≠ []) :
    ∀ (fuel : Nat) (parts : List (List Char)), parts.length < fuel →
      mergeGo seps true [] parts = attachSpec seps fuel parts := by
  intro fuel
  induction fuel with
  | zero => intro parts h; omega
  | succ fuel ih =>
      intro parts h
      cases parts with
      | nil => simp [mergeGo, attachSpec]
      | cons p rest =>
          by_cases hsep : isSepPart seps p = true
          · rw [mergeGo, if_pos hsep, attachSpec, if_pos hsep]
            have hp : p ≠ [] := sep_ne_nil_of_isSepPart seps hseps p hsep
            rw [show (if (true : Bool) then ([] : List Char) ++ p else [])
                = p from by simp]
            rw [mergeGo_keep_pending seps rest p hp]
            rw [List.dropWhile_cons_of_pos hsep,
              List.takeWhile_cons_of_pos hsep]
            cases hdw : rest.dropWhile (isSepPart seps) with
            | nil => simp
            | cons q r3 =>
                have h1 : (rest.dropWhile (isSepPart seps)).length
                    ≤ rest.length := length_dropWhile_le_parts _ rest
                rw [hdw] at h1
                have hlen : r3.length < fuel := by
                  simp at h1 h
                  omega
                show (q ++ (p ++ (rest.takeWhile (isSepPart seps)).flatten))
                    :: mergeGo seps true [] r3
                  = (q ++ (p :: rest.takeWhile (isSepPart seps)).flatten)
                    :: attachSpec seps fuel r3
                rw [ih r3 hlen]
                simp [List.append_assoc]
          · cases p with
            | nil =>
                rw [mergeGo, if_neg hsep, if_neg (by simp), if_neg (by simp)]
                rw [attachSpec, if_neg hsep]
                show mergeGo seps true [] rest = attachSpec seps fuel rest
                exact ih rest (by simp at h; omega)
            | cons c t =>
                rw [mergeGo, if_neg hsep, if_neg (by simp), if_pos (by simp)]
                rw [attachSpec, if_neg hsep, if_neg (by simp)]
                rw [ih rest (by simp at h; omega)]

/-- **Merge loop with `keep_delimiters = False`**: separator parts and empty
parts are dropped, whatever the buffer (which `keep_delimiters = False`
never fills). -/
theorem mergeGo_drop_spec (seps : List (List Char)) :
    ∀ (parts : List (List Char)) (b : List Char),
      mergeGo seps false b parts
        = parts.filter (fun p => !isSepPart seps p && !p.isEmpty) := by
  intro parts
  induction parts with
  | nil => intro b; simp [mergeGo]
  | cons p rest ih =>
      intro b
      by_cases hsep : isSepPart seps p = true
      · rw [mergeGo, if_pos hsep]
        rw [show (if (false : Bool) then b ++ p else b) = b from rfl]
        rw [List.filter_cons, if_neg (by simp [hsep])]
        exact ih b
      · cases p with
        | nil =>
            rw [mergeGo, if_neg hsep, if_neg (by simp), if_neg (by simp)]
            rw [List.filter_cons, if_neg (by simp)]
            exact ih b
        | cons c t =>
            rw [mergeGo, if_neg hsep, if_neg (by simp), if_pos (by simp)]
            rw [List.filter_cons, if_pos (by simp [hsep])]
            rw [ih b]

/-- `_split_on_separators` unfolded past its two empty-list guards. -/
theorem split_on_separators_eq (text : String) (separators : List String)
    (hne : (effSeps separators).isEmpty = false) (keep : Bool) :
    _split_on_separators text separators keep
      = ((mergeGo (effSeps separators) keep []
            (reSplitParts text separators)).filter
          (fun p => !p.isEmpty)).map (fun cs => (⟨cs⟩ : String)) := by
  have hsne : separators.isEmpty = false := by
    cases separators with
    | nil => simpa [effSeps] using hne
    | cons a l => rfl
  rw [_split_on_separators, if_neg (by simp [hsne])]
  show (if (effSeps separators).isEmpty = true then [text]
        else ((mergeGo (effSeps separators) keep []
            (reSplitGo (effSeps separators) (text.toList.length + 1) []
              text.toList)).filter (fun p => !p.isEmpty)).map
          (fun cs => (⟨cs⟩ : String))) = _
  rw [if_neg (by simp [hne])]
  rfl

/-- **C4 (amended).** For every input text and every separator list with at
least one non-empty separator: with `keep_delimiters = True` (the
`chunk_overlap > 0` case) the output is the regex part list with every
maximal run of separator occurrences glued to the END of the part that
FOLLOWS the run in the source text — a run followed by an empty part or by
the end of the input is emitted as a standalone chunk — with empty parts
dropped; with `keep_delimiters = False` (the `chunk_overlap == 0` case)
separator occurrences and empty parts are simply dropped. -/
theorem C4_separator_attachment (text : String) (separators : List String)
    (hne : (effSeps separators).isEmpty = false) :
    _split_on_separators text separators true
        = ((attachToFollowing (effSeps separators)
              (reSplitParts text separators)).filter
            (fun p => !p.isEmpty)).map (fun cs => (⟨cs⟩ : String)) ∧
    _split_on_separators text separators false
        = ((reSplitParts text separators).filter
            (fun p => !isSepPart (effSeps separators) p && !p.isEmpty)).map
          (fun cs => (⟨cs⟩ : String)) := by
  have hseps : ∀ s ∈ effSeps separators, s ≠ [] := by
    intro s hs
    have hprop := (List.mem_filter.mp hs).2
    intro hnil
    subst hnil
    simp at hprop
  constructor
  · rw [split_on_separators_eq text separators hne true]
    rw [mergeGo_keep_spec (effSeps separators) hseps
      ((reSplitParts text separators).length + 1) (reSplitParts text separators)
      (Nat.lt_succ_self _)]
    rfl
  · rw [split_on_separators_eq text separators hne false]
    rw [mergeGo_drop_spec (effSeps separators) (reSplitParts text separators) []]
    rw [List.filter_filter]
    apply congrArg
    apply List.filter_congr
    intro p _
    cases hs : isSepPart (effSeps separators) p <;> cases hp : p.isEmpty <;> rfl

/-- Witness for C4's amended theorem: text `"a\n\nb c\n\n"` with separators
`["\n\n", " "]` — a multi-character separator, a list of several separators
and a trailing separator run. -/
theorem C4_witness :
    (effSeps ["\n\n", " "]).isEmpty = false ∧
    (_split_on_separators "a\n\nb c\n\n" ["\n\n", " "] true
        = ((attachToFollowing (effSeps ["\n\n", " "])
              (reSplitParts "a\n\nb c\n\n" ["\n\n", " "])).filter
            (fun p => !p.isEmpty)).map (fun cs => (⟨cs⟩ : String)) ∧
     _split_on_separators "a\n\nb c\n\n" ["\n\n", " "] false
        = ((reSplitParts "a\n\nb c\n\n" ["\n\n", " "]).filter
            (fun p => !isSepPart (effSeps ["\n\n", " "]) p && !p.isEmpty)).map
          (fun cs => (⟨cs⟩ : String))) :=
  ⟨by decide, C4_separator_attachment "a\n\nb c\n\n" ["\n\n", " "] (by decide)⟩

/-- **C4 counterexample.** The claim says the separator is attached to the end
of the *preceding* segment, which for `"a b"` split on `" "` would give
`["a ", "b"]`; the merge loop of the code instead attaches it to the
*following* segment and returns `["a", "b "]`. -/
theorem C4_counterexample :
    _split_on_separators "a b" [" "] true = ["a", "b "] ∧
    _split_on_separators "a b" [" "] true ≠ ["a ", "b"] := by
  constructor
  · rfl
  · decide

/-! ## Level 6: custom delimiter splitting -/

/-- UTF-8 encoding of one character (RFC 3629), as Python `str.encode()`
produces it. -/
def utf8Bytes (c : Char) : List Nat :=
  let n := c.toNat
  if n < 0x80 then [n]
  else if n < 0x800 then [0xC0 + n / 64, 0x80 + n % 64]
  else if n < 0x10000 then
    [0xE0 + n / 4096, 0x80 + n / 64 % 64, 0x80 + n % 64]
  else
    [0xF0 + n / 262144, 0x80 + n / 4096 % 64, 0x80 + n / 64 % 64,
      0x80 + n % 64]

/-- Python `s.encode()`: the UTF-8 byte string. -/
def pyEncode (s : String) : List Nat :=
  (s.toList.map utf8Bytes).flatten

/-- Value of one hex-digit byte. -/
def hexVal (b : Nat) : Option Nat :=
  if 0x30 ≤ b ∧ b ≤ 0x39 then some (b - 0x30)
  else if 0x41 ≤ b ∧ b ≤ 0x46 then some (b - 0x41 + 10)
  else if 0x61 ≤ b ∧ b ≤ 0x66 then some (b - 0x61 + 10)
  else none

/-- Exactly `k` hex-digit bytes; fails (as the codec does) when one is
missing or not a hex digit. -/
def hexSeq : Nat → List Nat → Option (Nat × List Nat)
  | 0, s => some (0, s)
  | _ + 1, [] => none
  | k + 1, b :: t =>
      match hexVal b with
      | none => none
      | some v =>
          match hexSeq k t with
          | none => none
          | some (w, rest) => some (v * 16 ^ k + w, rest)

/-- Octal-digit byte. -/
def isOctal (b : Nat) : Bool := decide (0x30 ≤ b ∧ b ≤ 0x37)

/-- Up to `k` further octal digits extending the value `v`. -/
def octMore (v : Nat) : Nat → List Nat → Nat × List Nat
  | 0, s => (v, s)
  | _ + 1, [] => (v, [])
  | k + 1, b :: t =>
      if isOctal b then octMore (v * 8 + (b - 0x30)) k t else (v, b :: t)

/-- Python `bytes.decode("unicode_escape")` on a byte list (fuel-based;
`fuel > length` suffices).  Non-backslash bytes decode as Latin-1; the
recognized escapes are those of CPython's unicode-escape codec: a backslash
before a newline is a line continuation, `\\`, `\'`, `\"`, `\a`, `\b`,
`\f`, `\n`, `\r`, `\t`, `\v`, one to three octal digits, `\xHH`, `\uHHHH`
and `\UHHHHHHHH`; an unrecognized escape keeps the backslash and the
following byte.  `none` models the `UnicodeDecodeError` the codec raises on
a trailing backslash or a malformed `\x`, `\u` or `\U` escape (including
`\U` values beyond the Unicode range).  Two corners are deliberately outside
the model and also mapped to `none`: `\N\x7b...\x7d` (its success cases need
the Unicode name database) and `\u`/`\U` escapes denoting lone surrogates
(expressible in a CPython `str` but not representable as a Lean `Char`); no
settled claim depends on either, as every theorem below that touches this
model either assumes the decode succeeds or exhibits a genuine failure. -/
def unicodeEscapeBytes : Nat → List Nat → Option (List Char)
  | 0, _ => none
  | _ + 1, [] => some []
  | fuel + 1, b :: t =>
      if b ≠ 0x5C then
        (unicodeEscapeBytes fuel t).map (fun cs => Char.ofNat b :: cs)
      else
        match t with
        | [] => none
        | e :: t2 =>
            if e = 0x0A then unicodeEscapeBytes fuel t2
            else if e = 0x5C then
              (unicodeEscapeBytes fuel t2).map (fun cs => Char.ofNat 0x5C :: cs)
            else if e = 0x27 then
              (unicodeEscapeBytes fuel t2).map (fun cs => Char.ofNat 0x27 :: cs)
            else if e = 0x22 then
              (unicodeEscapeBytes fuel t2).map (fun cs => Char.ofNat 0x22 :: cs)
            else if e = 0x61 then
              (unicodeEscapeBytes fuel t2).map (fun cs => Char.ofNat 0x07 :: cs)
            else if e = 0x62 then
              (unicodeEscapeBytes fuel t2).map (fun cs => Char.ofNat 0x08 :: cs)
            else if e = 0x66 then
              (unicodeEscapeBytes fuel t2).map (fun cs => Char.ofNat 0x0C :: cs)
            else if e = 0x6E then
              (unicodeEscapeBytes fuel t2).map (fun cs => Char.ofNat 0x0A :: cs)
            else if e = 0x72 then
              (unicodeEscapeBytes fuel t2).map (fun cs => Char.ofNat 0x0D :: cs)
            else if e = 0x74 then
              (unicodeEscapeBytes fuel t2).map (fun cs => Char.ofNat 0x09 :: cs)
            else if e = 0x76 then
              (unicodeEscapeBytes fuel t2).map (fun cs => Char.ofNat 0x0B :: cs)
            else if isOctal e then
              match octMore (e - 0x30) 2 t2 with
              | (v, rest) =>
                  (unicodeEscapeBytes fuel rest).map
                    (fun cs => Char.ofNat v :: cs)
            else if e = 0x78 then
              match hexSeq 2 t2 with
              | none => none
              | some (v, rest) =>
                  (unicodeEscapeBytes fuel rest).map
                    (fun cs => Char.ofNat v :: cs)
            else if e = 0x75 then
              match hexSeq 4 t2 with
              | none => none
              | some (v, rest) =>
                  if Nat.isValidChar v then
                    (unicodeEscapeBytes fuel rest).map
                      (fun cs => Char.ofNat v :: cs)
                  else none
            else if e = 0x55 then
              match hexSeq 8 t2 with
              | none => none
              | some (v, rest) =>
                  if Nat.isValidChar v then
                    (unicodeEscapeBytes fuel rest).map
                      (fun cs => Char.ofNat v :: cs)
                  else none
            else if e = 0x4E then none
            else
              (unicodeEscapeBytes fuel t2).map
                (fun cs => Char.ofNat 0x5C :: Char.ofNat e :: cs)

/-- Python `s.encode().decode("unicode_escape")`; `none` models the raised
`UnicodeDecodeError`. -/
def pyUnicodeEscape (s : String) : Option String :=
  (unicodeEscapeBytes ((pyEncode s).length + 1) (pyEncode s)).map
    (fun cs => (⟨cs⟩ : String))

/-- The escape processing of `level6_custom_delimiter_splitting` (chunking.py
lines 136-152): special-cases `\n`, `\t`, `\r`, `\n\n`; otherwise applies
`unicode_escape` only when the delimiter contains a backslash, and the
`try/except Exception: pass` keeps the original delimiter when the codec
raises. -/
def processDelimiterL6 (delimiter : String) : String :=
  if delimiter = "\\n" then "\n"
  else if delimiter = "\\t" then "\t"
  else if delimiter = "\\r" then "\r"
  else if delimiter = "\\n\\n" then "\n\n"
  else if containsSub delimiter.toList ['\\'] then
    match pyUnicodeEscape delimiter with
    | some p => p
    | none => delimiter
  else delimiter

/-- `level6_custom_delimiter_splitting(text, delimiter=..., config=...)`:
split on the processed delimiter, drop blank pieces, and fall back to the
whole text when nothing remains.  `config` is accepted and unused, as in the
source. -/
def level6_custom_delimiter_splitting (text delimiter : String)
    (config : Option ChunkingConfig := none) : List String :=
  if delimiter = "" then [text]
  else if ((pySplit text (processDelimiterL6 delimiter)).filter
      (fun c => pyStrip c != "")).isEmpty then [text]
  else (pySplit text (processDelimiterL6 delimiter)).filter
      (fun c => pyStrip c != "")

/-- The sentence-packing loop of `_split_large_semantic_chunk` (chunking.py
lines 683-701).  The source's overlap conditional is reproduced verbatim:
*both* of its branches assign `current_chunk = sentence`. -/
def splitLargeGo (target_size overlap : Int) (sub_chunks : List String)
    (current_chunk : String) : List String → List String
  | [] =>
      if current_chunk ≠ "" then sub_chunks ++ [current_chunk] else sub_chunks
  | sentence :: rest =>
      if current_chunk ≠ "" ∧
          ((current_chunk ++ sentence).length : Int) > target_size then
        splitLargeGo target_size overlap
          (if current_chunk ≠ "" then sub_chunks ++ [current_chunk]
           else sub_chunks)
          (if overlap > 0 ∧ current_chunk ≠ "" then sentence else sentence) rest
      else
        splitLargeGo target_size overlap sub_chunks
          (if current_chunk ≠ "" then current_chunk ++ sentence else sentence)
          rest

/-- `_split_large_semantic_chunk(chunk_text, sentences, target_size, overlap)`. -/
def _split_large_semantic_chunk (chunk_text : String) (sentences : List String)
    (target_size overlap : Int) : List String :=
  if (chunk_text.length : Int) ≤ target_size then [chunk_text]
  else splitLargeGo target_size overlap [] "" sentences

/-- Concatenation of a group of sentences (`current_chunk += sentence`). -/
def concatStrs : List String → String
  | [] => ""
  | s :: t => s ++ concatStrs t

theorem strAppend_assoc (a b c : String) : (a ++ b) ++ c = a ++ (b ++ c) := by
  apply String.ext
  simp [String.data_append, List.append_assoc]

theorem strAppend_empty (a : String) : a ++ "" = a := by
  apply String.ext
  simp [String.data_append]

theorem strAppend_ne_empty_left (a b : String) (h : a ≠ "") : a ++ b ≠ "" := by
  intro he
  apply h
  have hd := congrArg String.data he
  simp only [String.data_append] at hd
  rcases List.append_eq_nil.mp (by simpa using hd) with ⟨ha, _⟩
  apply String.ext
  simpa using ha

/-- The packing loop only appends to the accumulated `sub_chunks`. -/
theorem splitLargeGo_acc (ts ov : Int) :
    ∀ (l : List String) (sub : List String) (cur : String),
    splitLargeGo ts ov sub cur l = sub ++ splitLargeGo ts ov [] cur l := by
  intro l
  induction l with
  | nil =>
      intro sub cur
      by_cases h : cur ≠ ""
      · rw [splitLargeGo, splitLargeGo, if_pos h, if_pos h]
        simp
      · rw [splitLargeGo, splitLargeGo, if_neg h, if_neg h]
        simp
  | cons s rest ih =>
      intro sub cur
      rw [splitLargeGo, splitLargeGo]
      by_cases h : cur ≠ "" ∧ ((cur ++ s).length : Int) > ts
      · rw [if_pos h, if_pos h, if_pos h.1, if_pos h.1]
        rw [ih (sub ++ [cur]), ih ([] ++ [cur])]
        simp
      · rw [if_neg h, if_neg h]
        rw [ih sub]

/-- The packing loop ignores the overlap argument entirely: both branches of
the source's `if overlap > 0 and current_chunk` assign the same value. -/
theorem splitLargeGo_overlap_irrel (ts ov1 ov2 : Int) :
    ∀ (l : List String) (sub : List String) (cur : String),
    splitLargeGo ts ov1 sub cur l = splitLargeGo ts ov2 sub cur l := by
  intro l
  induction l with
  | nil => intro sub cur; rfl
  | cons s rest ih =>
      intro sub cur
      rw [splitLargeGo, splitLargeGo]
      by_cases h : cur ≠ "" ∧ ((cur ++ s).length : Int) > ts
      · rw [if_pos h, if_pos h, ite_self, ite_self]
        exact ih _ _
      · rw [if_neg h, if_neg h]
        exact ih _ _

/-- With a non-empty running chunk, the packing loop emits exactly the
concatenations of a partition of the remaining sentences into consecutive
groups, the first group extending the running chunk. -/
theorem splitLargeGo_groups (ts ov : Int) :
    ∀ (l : List String) (cur : String), cur ≠ "" → (∀ s ∈ l, s ≠ "") →
    ∃ (h : List String) (groups : List (List String)),
      l = h ++ groups.flatten ∧ (∀ g ∈ groups, g ≠ []) ∧
      splitLargeGo ts ov [] cur l
        = (cur ++ concatStrs h) :: groups.map concatStrs := by
  intro l
  induction l with
  | nil =>
      intro cur hcur _
      refine ⟨[], [], by simp, by simp, ?_⟩
      rw [splitLargeGo, if_pos hcur]
      show [cur] = [cur ++ ""]
      rw [strAppend_empty]
  | cons s rest ih =>
      intro cur hcur hl
      have hs : s ≠ "" := hl s (by simp)
      have hrest : ∀ x ∈ rest, x ≠ "" := fun x hx => hl x (by simp [hx])
      rw [splitLargeGo]
      by_cases h : cur ≠ "" ∧ ((cur ++ s).length : Int) > ts
      · rw [if_pos h, if_pos h.1, ite_self]
        rw [splitLargeGo_acc ts ov rest ([] ++ [cur]) s]
        rcases ih s hs hrest with ⟨h', groups', hflat, hgne, heq⟩
        refine ⟨[], (s :: h') :: groups', ?_, ?_, ?_⟩
        · simp [hflat]
        · intro g hg
          rcases List.mem_cons.mp hg with rfl | hg
          · simp
          · exact hgne g hg
        · rw [heq]
          show cur :: (s ++ concatStrs h') :: groups'.map concatStrs = _
          rw [show concatStrs [] = "" from rfl, strAppend_empty]
          rfl
      · rw [if_neg h]
        have hcs : cur ++ s ≠ "" := strAppend_ne_empty_left cur s hcur
        rw [if_pos hcur]
        rcases ih (cur ++ s) hcs hrest with ⟨h', groups', hflat, hgne, heq⟩
        refine ⟨s :: h', groups', by simp [hflat], hgne, ?_⟩
        rw [heq]
        show ((cur ++ s) ++ concatStrs h') :: _ = (cur ++ (s ++ concatStrs h')) :: _
        rw [strAppend_assoc]

/-- **C8 (amended).** When `_split_large_semantic_chunk` actually re-packs a
chunk (its text longer than `target_size`; in Level 4 it is only called with
length above `2 × chunk_size`), the output is produced at whole-sentence
granularity: it is the list of concatenations of a partition of the sentence
list into consecutive non-empty groups, so no boundary falls mid-sentence.
However, the overlap parameter has no effect at all — in particular the
previous sentence is never re-included when `chunk_overlap > 0`: the source's
overlap conditional assigns `current_chunk = sentence` in both branches. -/
theorem C8_sentence_granularity (chunk_text : String) (sentences : List String)
    (target_size overlap : Int)
    (hs : ∀ s ∈ sentences, s ≠ "")
    (hbig : ¬ ((chunk_text.length : Int) ≤ target_size)) :
    (∃ groups : List (List String),
      groups.flatten = sentences ∧ (∀ g ∈ groups, g ≠ []) ∧
      _split_large_semantic_chunk chunk_text sentences target_size overlap
        = groups.map concatStrs) ∧
    _split_large_semantic_chunk chunk_text sentences target_size overlap
      = _split_large_semantic_chunk chunk_text sentences target_size 0 := by
  constructor
  · rw [_split_large_semantic_chunk, if_neg hbig]
    cases sentences with
    | nil => exact ⟨[], by simp, by simp, rfl⟩
    | cons s rest =>
        have hs0 : s ≠ "" := hs s (by simp)
        have hrest : ∀ x ∈ rest, x ≠ "" := fun x hx => hs x (by simp [hx])
        rw [splitLargeGo, if_neg (by simp), if_neg (by simp)]
        rcases splitLargeGo_groups target_size overlap rest s hs0 hrest with
          ⟨h', groups', hflat, hgne, heq⟩
        refine ⟨(s :: h') :: groups', by simp [hflat], ?_, ?_⟩
        · intro g hg
          rcases List.mem_cons.mp hg with rfl | hg
          · simp
          · exact hgne g hg
        · rw [heq]
          rfl
  · rw [_split_large_semantic_chunk, _split_large_semantic_chunk,
      if_neg hbig, if_neg hbig]
    exact splitLargeGo_overlap_irrel target_size overlap 0 sentences [] ""

/-- Witness for C8's amended theorem at a concrete oversized chunk. -/
theorem C8_witness :
    _split_large_semantic_chunk "aaaa bbbb cccc" ["aaaa", "bbbb", "cccc"] 5 2
      = _split_large_semantic_chunk "aaaa bbbb cccc" ["aaaa", "bbbb", "cccc"] 5 0 :=
  (C8_sentence_granularity "aaaa bbbb cccc" ["aaaa", "bbbb", "cccc"] 5 2
    (by decide) (by decide)).2

/-- **C8 counterexample.** With `overlap = 2 > 0`, target size 5 and sentences
`["aaaa","bbbb","cccc"]` (chunk text of length 14 > 2×5), the claim says each
sub-chunk after the first re-includes the previous sentence; the code returns
`["aaaa","bbbb","cccc"]` — the second sub-chunk does not contain the previous
sentence `"aaaa"` at all. -/
theorem C8_counterexample :
    _split_large_semantic_chunk "aaaa bbbb cccc" ["aaaa", "bbbb", "cccc"] 5 2
        = ["aaaa", "bbbb", "cccc"] ∧
    pyContains "bbbb" "aaaa" = false := by
  refine ⟨by decide, by decide⟩

/-! ## Table-preserving custom delimiter splitting (C2) -/

/-- `\s*`. -/
def skipWs (s : List Char) : List Char := s.dropWhile isPyWs

/-- `:?-{3,}:?\s*`: optional colon, at least three dashes (greedy — the
following regex atoms cannot match a dash, so maximal munch is exact),
optional colon, trailing whitespace.  Returns the rest on success. -/
def parseDashSeg (s : List Char) : Option (List Char) :=
  let s1 := match s with | ':' :: t => t | _ => s
  let dashes := s1.takeWhile (· == '-')
  if 3 ≤ dashes.length then
    let s2 := s1.drop dashes.length
    let s3 := match s2 with | ':' :: t => t | _ => s2
    some (skipWs s3)
  else none

/-- One `(\|\s*:?-{3,}:?\s*)` group. -/
def parseBarSeg (s : List Char) : Option (List Char) :=
  match s with
  | '|' :: t => parseDashSeg (skipWs t)
  | _ => none

/-- After the mandatory first bar group: more groups, then `\|?\s*$`.  A `'|'`
is consumed as a further group when one parses, else as the trailing `\|?`
(the two alternatives are mutually exclusive, so this is the regex's
backtracking behaviour). -/
def alignTail : Nat → List Char → Bool
  | 0, _ => false
  | fuel + 1, s =>
      match parseBarSeg s with
      | some rest => alignTail fuel rest
      | none =>
          match s with
          | [] => true
          | '|' :: t => (skipWs t).isEmpty
          | _ => false

/-- Matcher for the GFM alignment-row regex
`^\s*\|?\s*:?-{3,}:?\s*(\|\s*:?-{3,}:?\s*)+\|?\s*$` (chunking.py line 203). -/
def isAlignRow (line : List Char) : Bool :=
  let s0 := skipWs line
  let s1 := match s0 with | '|' :: t => skipWs t | _ => s0
  match parseDashSeg s1 with
  | none => false
  | some rest =>
      match parseBarSeg rest with
      | none => false
      | some rest2 => alignTail (rest2.length + 1) rest2

/-- `"|" in line and i + 1 < n and <alignment row>(lines[i + 1])`. -/
def isTableStart (line : List Char) (rest : List (List Char)) : Bool :=
  containsSub line ['|'] &&
    (match rest with
     | next :: _ => isAlignRow next
     | [] => false)

/-- `while i < n and ("|" in lines[i]) and lines[i].strip() != ""`. -/
def takeTableRows : List (List Char) → (List (List Char) × List (List Char))
  | [] => ([], [])
  | l :: rest =>
      if containsSub l ['|'] && !(stripL l).isEmpty then
        let p := takeTableRows rest
        (l :: p.1, p.2)
      else ([], l :: rest)

/-- The text-block loop: collect lines up to (excluding) the next table
start. -/
def takeTextLines : List (List Char) → (List (List Char) × List (List Char))
  | [] => ([], [])
  | l :: rest =>
      if isTableStart l rest then ([], l :: rest)
      else
        let p := takeTextLines rest
        (l :: p.1, p.2)

/-- The block scanner of
`custom_delimiter_splitting_with_chunk_size_and_leave_table_alone`
(chunking.py lines 197-220): tags each maximal block `"table"` or `"text"`,
content being the `"\n"`-join of its lines. -/
def parseBlocksT : Nat → List (List Char) → List (String × String)
  | 0, _ => []
  | _ + 1, [] => []
  | fuel + 1, l :: rest =>
      if isTableStart l rest then
        match rest with
        | next :: rest2 =>
            let p := takeTableRows rest2
            ("table", joinLines ((l :: next :: p.1).map (⟨·⟩)))
              :: parseBlocksT fuel p.2
        | [] => []
      else
        let p := takeTextLines rest
        ("text", joinLines ((l :: p.1).map (⟨·⟩))) :: parseBlocksT fuel p.2

/-- The tagged blocks of a text, as the source computes them
(`text.splitlines()` then the scanner). -/
def tableBlocks (text : String) : List (String × String) :=
  parseBlocksT ((pySplitlines text).length + 1)
    ((pySplitlines text).map String.toList)

/-- `"\n\n".join(...)`. -/
def nnJoin (l : List String) : String := String.intercalate "\n\n" l

/-- The loop of `_smart_merge_text_segments` (lines 311-332).  The float
comparison `current_size < target_size * 0.5` is modelled exactly by
`2 * current_size < target_size` (equivalent over the integers). -/
def smartMergeGo (target_size : Int) (chunks current_chunk : List String)
    (current_size : Int) : List String → List String
  | [] =>
      if !current_chunk.isEmpty then chunks ++ [nnJoin current_chunk]
      else chunks
  | segment :: rest =>
      if current_chunk.isEmpty then
        smartMergeGo target_size chunks [segment] (segment.length : Int) rest
      else
        if current_size + 2 + (segment.length : Int) ≤ target_size ∨
            2 * current_size < target_size then
          smartMergeGo target_size chunks (current_chunk ++ [segment])
            (current_size + 2 + (segment.length : Int)) rest
        else
          smartMergeGo target_size (chunks ++ [nnJoin current_chunk]) [segment]
            (segment.length : Int) rest

/-- `_smart_merge_text_segments(segments, target_size, overlap)` (`overlap` is
accepted and unused, as in the source). -/
def _smart_merge_text_segments (segments : List String)
    (target_size overlap : Int) : List String :=
  if segments.isEmpty then []
  else smartMergeGo target_size [] [] 0 segments

/-- The escape processing of the table-preserving splitter (lines 181-192):
the four special cases, then `delimiter.encode().decode("unicode_escape")`
applied *unconditionally and without a `try/except`* (unlike Level 6):
`none` models the `UnicodeDecodeError` escaping from the function. -/
def processDelimiterTable (delimiter : String) : Option String :=
  if delimiter = "\\n" then some "\n"
  else if delimiter = "\\t" then some "\t"
  else if delimiter = "\\r" then some "\r"
  else if delimiter = "\\n\\n" then some "\n\n"
  else pyUnicodeEscape delimiter

/-- One `chunk` / `content` iteration of the greedy text accumulation (lines
242-283; the delimiter-found and no-delimiter branches run the same logic):
state is `(chunks, current_text_chunks, current_size)`. -/
def addPiece (chunk_size : Int) (st : List String × List String × Int)
    (piece : String) : List String × List String × Int :=
  if pyStrip piece ≠ "" then
    if st.2.1.isEmpty then (st.1, [pyStrip piece], ((pyStrip piece).length : Int))
    else
      if st.2.2 + 2 + ((pyStrip piece).length : Int) ≤ chunk_size ∨
          2 * st.2.2 < chunk_size then
        (st.1, st.2.1 ++ [pyStrip piece],
          st.2.2 + 2 + ((pyStrip piece).length : Int))
      else
        (st.1 ++ [nnJoin st.2.1], [pyStrip piece],
          ((pyStrip piece).length : Int))
  else st

/-- The block-assembly loop (lines 223-288), written with the chunks emitted
so far as a result prefix: a table block flushes the pending text (through
`_smart_merge_text_segments`) and is emitted standalone; a text block is
split on the processed delimiter (when it occurs) and greedily accumulated. -/
def assembleBlocksGo (cfg : ChunkingConfig) (pd : String)
    (current : List String) (cur_size : Int) :
    List (String × String) → List String
  | [] =>
      if !current.isEmpty then
        _smart_merge_text_segments current cfg.chunk_size cfg.chunk_overlap
      else []
  | (typ, content) :: rest =>
      if typ = "table" then
        (if !current.isEmpty then
          _smart_merge_text_segments current cfg.chunk_size cfg.chunk_overlap
         else []) ++ content :: assembleBlocksGo cfg pd [] 0 rest
      else
        let pieces := if pyContains content pd then pySplit content pd
                      else [content]
        let st := pieces.foldl (addPiece cfg.chunk_size) ([], current, cur_size)
        st.1 ++ assembleBlocksGo cfg pd st.2.1 st.2.2 rest

/-- `custom_delimiter_splitting_with_chunk_size_and_leave_table_alone`:
`none` models the `UnicodeDecodeError` raised by the unconditional
`unicode_escape` of line 192 propagating out of the function. -/
def custom_delimiter_splitting_with_chunk_size_and_leave_table_alone
    (text delimiter : String) (config : Option ChunkingConfig := none) :
    Option (List String) :=
  if delimiter = "" then some [text]
  else
    (processDelimiterTable delimiter).map (fun pd =>
      assembleBlocksGo (config.getD {}) pd [] 0 (tableBlocks text))

/-- `^\s*(```|~~~)([^`]*)$`: fenced-code opening line; returns the fence.
(The `~~~` opener also rejects a backtick in the info string, as the source
regex does.) -/
def matchFenceOpen (line : List Char) : Option (List Char) :=
  let s := skipWs line
  if ['`', '`', '`'].isPrefixOf s then
    if (s.drop 3).contains '`' then none else some ['`', '`', '`']
  else if ['~', '~', '~'].isPrefixOf s then
    if (s.drop 3).contains '`' then none else some ['~', '~', '~']
  else none

/-- `^\s*{re.escape(fence)}\s*$`: fenced-code closing line. -/
def matchFenceClose (fence line : List Char) : Bool :=
  fence.isPrefixOf (skipWs line) &&
    (skipWs ((skipWs line).drop fence.length)).isEmpty

/-- `^\s{0,3}#{1,6}\s+`: ATX heading. -/
def isHeadingLine (line : List Char) : Bool :=
  let ws := line.takeWhile isPyWs
  decide (ws.length ≤ 3) &&
    (let s := line.drop ws.length
     let hashes := s.takeWhile (· == '#')
     decide (1 ≤ hashes.length ∧ hashes.length ≤ 6) &&
       (match s.drop hashes.length with
        | c :: _ => isPyWs c
        | [] => false))

/-- `(?:c\s?){3,}$`: at least three groups of the rule character, each
optionally followed by one whitespace character. -/
def hrCount (ch : Char) : List Char → Nat → Bool
  | [], count => decide (3 ≤ count)
  | [c], count => c == ch && decide (3 ≤ count + 1)
  | c :: w :: t, count =>
      if c == ch then
        if isPyWs w then hrCount ch t (count + 1)
        else hrCount ch (w :: t) (count + 1)
      else false

/-- `^\s{0,3}(?:-\s?){3,}$|^\s{0,3}(?:_\s?){3,}$|^\s{0,3}(?:\*\s?){3,}$`. -/
def isHrLine (line : List Char) : Bool :=
  let ws := line.takeWhile isPyWs
  decide (ws.length ≤ 3) &&
    (hrCount '-' (line.drop ws.length) 0 ||
     hrCount '_' (line.drop ws.length) 0 ||
     hrCount '*' (line.drop ws.length) 0)

/-- `^\s*>\s?`. -/
def isBlockquoteLine (line : List Char) : Bool :=
  match skipWs line with
  | '>' :: _ => true
  | _ => false

/-- `^\s*(?:[-+*]|\d+[.)])\s+`. -/
def isListItemLine (line : List Char) : Bool :=
  let s := skipWs line
  match s with
  | c :: rest =>
      if c = '-' ∨ c = '+' ∨ c = '*' then
        match rest with
        | w :: _ => isPyWs w
        | [] => false
      else
        let digits := s.takeWhile (·.isDigit)
        decide (1 ≤ digits.length) &&
          (match s.drop digits.length with
           | p :: w :: _ => (p == '.' || p == ')') && isPyWs w
           | _ => false)
  | [] => false

/-- `lines[i].startswith("    ") or lines[i].startswith("\t")`. -/
def isListContinuation (line : List Char) : Bool :=
  [' ', ' ', ' ', ' '].isPrefixOf line || ['\t'].isPrefixOf line

/-- The paragraph-interrupting regex of chunking.py line 484:
`^\s{0,3}#{1,6}\s+|^\s*>\s?|^\s*(?:[-+*]|\d+[.)])\s+|^\s*(```|~~~)`. -/
def isParaInterrupt (line : List Char) : Bool :=
  isHeadingLine line || isBlockquoteLine line || isListItemLine line ||
    (match skipWs line with
     | '`' :: '`' :: '`' :: _ => true
     | '~' :: '~' :: '~' :: _ => true
     | _ => false)

/-- `while i < n and not <closing fence>(lines[i])`. -/
def takeCodeLines (fence : List Char) :
    List (List Char) → (List (List Char) × List (List Char))
  | [] => ([], [])
  | l :: rest =>
      if matchFenceClose fence l then ([], l :: rest)
      else
        let p := takeCodeLines fence rest
        (l :: p.1, p.2)

/-- `while i < n and lines[i].strip() == ""` (after a heading). -/
def takeBlankLines : List (List Char) → (List (List Char) × List (List Char))
  | [] => ([], [])
  | l :: rest =>
      if (stripL l).isEmpty then
        let p := takeBlankLines rest
        (l :: p.1, p.2)
      else ([], l :: rest)

/-- `while i < n and <blockquote>(lines[i])`. -/
def takeBlockquoteLines :
    List (List Char) → (List (List Char) × List (List Char))
  | [] => ([], [])
  | l :: rest =>
      if isBlockquoteLine l then
        let p := takeBlockquoteLines rest
        (l :: p.1, p.2)
      else ([], l :: rest)

/-- `while i < n and (<list item>(lines[i]) or indented continuation)`. -/
def takeListLines : List (List Char) → (List (List Char) × List (List Char))
  | [] => ([], [])
  | l :: rest =>
      if isListItemLine l || isListContinuation l then
        let p := takeListLines rest
        (l :: p.1, p.2)
      else ([], l :: rest)

/-- The paragraph loop of lines 484-488. -/
def takeParaLines : List (List Char) → (List (List Char) × List (List Char))
  | [] => ([], [])
  | l :: rest =>
      if !(stripL l).isEmpty && !isParaInterrupt l && !isTableStart l rest then
        let p := takeParaLines rest
        (l :: p.1, p.2)
      else ([], l :: rest)

/-- The structural scanner of `_split_markdown` (lines 409-489):
fenced code, heading, horizontal rule, table, blockquote, list, blank line,
paragraph — in the source's order of precedence. -/
def mdBlocksGo : Nat → List (List Char) → List (String × String)
  | 0, _ => []
  | _ + 1, [] => []
  | fuel + 1, l :: rest =>
      match matchFenceOpen l with
      | some fence =>
          let p := takeCodeLines fence rest
          (match p.2 with
           | close :: rest2 =>
              ("code", joinLines ((l :: (p.1 ++ [close])).map (⟨·⟩)))
                :: mdBlocksGo fuel rest2
           | [] =>
              ("code", joinLines ((l :: p.1).map (⟨·⟩))) :: mdBlocksGo fuel [])
      | none =>
        if isHeadingLine l then
          let p := takeBlankLines rest
          ("heading", joinLines ((l :: p.1).map (⟨·⟩))) :: mdBlocksGo fuel p.2
        else if isHrLine l then
          ("hr", (⟨l⟩ : String)) :: mdBlocksGo fuel rest
        else if isTableStart l rest then
          match rest with
          | next :: rest2 =>
              let p := takeTableRows rest2
              ("table", joinLines ((l :: next :: p.1).map (⟨·⟩)))
                :: mdBlocksGo fuel p.2
          | [] => []
        else if isBlockquoteLine l then
          let p := takeBlockquoteLines rest
          ("blockquote", joinLines ((l :: p.1).map (⟨·⟩))) :: mdBlocksGo fuel p.2
        else if isListItemLine l then
          let p := takeListLines rest
          ("list", joinLines ((l :: p.1).map (⟨·⟩))) :: mdBlocksGo fuel p.2
        else if (stripL l).isEmpty then
          ("blank", (⟨l⟩ : String)) :: mdBlocksGo fuel rest
        else
          let p := takeParaLines rest
          ("para", joinLines ((l :: p.1).map (⟨·⟩))) :: mdBlocksGo fuel p.2

/-- The typed blocks of a Markdown text. -/
def mdBlocks (text : String) : List (String × String) :=
  mdBlocksGo ((pySplitlines text).length + 1)
    ((pySplitlines text).map String.toList)

/-- `doc_options` of the Markdown splitter. -/
structure MdOptions where
  preserve_headers : Bool := true
  preserve_code_blocks : Bool := true
  preserve_lists : Bool := true
deriving Repr, DecidableEq

/-- The heading-grouping loop of `_split_markdown` (lines 493-510), including
the source's vacuous case split on `preserve_code_blocks` / `preserve_lists`
(all three branches append the block content). -/
def groupByHeadings (pcb pl : Bool) (current : List String) :
    List (String × String) → List String
  | [] => if !current.isEmpty then [pyStrip (nnJoin current)] else []
  | (typ, content) :: rest =>
      if typ = "heading" then
        (if !current.isEmpty then [pyStrip (nnJoin current)] else [])
          ++ groupByHeadings pcb pl [content] rest
      else
        if typ = "code" ∧ pcb then
          groupByHeadings pcb pl (current ++ [content]) rest
        else if typ = "list" ∧ pl then
          groupByHeadings pcb pl (current ++ [content]) rest
        else groupByHeadings pcb pl (current ++ [content]) rest

/-- `_split_markdown(text, cfg, options)`. -/
def _split_markdown (text : String) (cfg : ChunkingConfig)
    (options : Option MdOptions := none) : List String :=
  (((if (options.getD {}).preserve_headers then
      groupByHeadings (options.getD {}).preserve_code_blocks
        (options.getD {}).preserve_lists [] (mdBlocks text)
    else ((mdBlocks text).map Prod.snd).filter
        (fun c => pyStrip c != "")).filter
      (fun s => pyStrip s != "")).map
    (fun sec => _by_max_tokens [sec] cfg.chunk_size cfg.chunk_overlap)).flatten

/-- The grouping loop gives the same sections whatever the two preserve
flags are. -/
theorem groupByHeadings_flags (pcb1 pl1 pcb2 pl2 : Bool) :
    ∀ (blocks : List (String × String)) (current : List String),
    groupByHeadings pcb1 pl1 current blocks
      = groupByHeadings pcb2 pl2 current blocks := by
  intro blocks
  induction blocks with
  | nil => intro current; rfl
  | cons b rest ih =>
      intro current
      obtain ⟨typ, content⟩ := b
      rw [groupByHeadings, groupByHeadings]
      by_cases h : typ = "heading"
      · rw [if_pos h, if_pos h, ih]
      · rw [if_neg h, if_neg h]
        simp only [ite_self]
        exact ih _

/-- **C9.** For every Markdown input, every config and every setting of
`preserve_headers`, the output of the Markdown document-type splitter is
identical for all values of `preserve_code_blocks` and `preserve_lists`:
the two flags are accepted but have no effect. -/
theorem C9_markdown_flags_noop (text : String) (cfg : ChunkingConfig)
    (ph pcb1 pl1 pcb2 pl2 : Bool) :
    _split_markdown text cfg
        (some { preserve_headers := ph, preserve_code_blocks := pcb1,
                preserve_lists := pl1 })
      = _split_markdown text cfg
        (some { preserve_headers := ph, preserve_code_blocks := pcb2,
                preserve_lists := pl2 }) := by
  cases ph with
  | false => rfl
  | true =>
      show (((groupByHeadings pcb1 pl1 [] (mdBlocks text)).filter
          (fun s => pyStrip s != "")).map
        (fun sec => _by_max_tokens [sec] cfg.chunk_size cfg.chunk_overlap)).flatten
          = _
      rw [groupByHeadings_flags pcb1 pl1 pcb2 pl2 (mdBlocks text) []]
      rfl

/-! ## Level 4: semantic splitting -/

/-- The terminal-punctuation class `[；;。？！?!]` shared by the sentence
splitters of Level 4 (line 596) and Level 5 (line 728) — same seven
characters. -/
def isSentenceTerminal (c : Char) : Bool :=
  c == '；' || c == ';' || c == '。' || c == '？' || c == '！' || c == '?' ||
    c == '!'

/-- `re.split(r'(?<=[；;。？！?!])', …)`: cut after every terminal character
(zero-width split, so a trailing terminal yields a trailing empty piece). -/
def sentenceSplitGo (acc : List Char) : List Char → List (List Char)
  | [] => [acc.reverse]
  | c :: t =>
      if isSentenceTerminal c then (c :: acc).reverse :: sentenceSplitGo [] t
      else sentenceSplitGo (c :: acc) t

/-- Sentence segmentation (lines 596-597 / 728-731): split the stripped text
after terminal punctuation, strip each piece, drop blanks. -/
def splitSentences (text : String) : List String :=
  ((sentenceSplitGo [] (pyStrip text).toList).map
    (fun cs => pyStrip (⟨cs⟩ : String))).filter (fun s => s != "")

/-- The injected `AIClient`: embedding vectors live in the abstract type `V`
(its float components and `_cosine_similarity` are abstracted by the `sim`
argument of the semantic splitter); `chat_invoke` takes the messages, the
model override, `max_tokens`, `enable_thinking`, `temperature` and the opaque
`extra_body`. -/
structure AIClient (V : Type) where
  embedding_model_name : String := "text-embedding"
  text_model_name : String := "chat-model"
  embed_texts : List String → List V
  chat_invoke : List (String × String) → Option String → Int → Bool → ℚ →
    Option String → String

/-- `combined = ''.join(sentences[max(0, i - buffer_size)
: min(len(sentences), i + buffer_size + 1)])` (lines 605-608). -/
def combinedWindow (sentences : List String) (buffer_size i : Nat) : String :=
  concatStrs ((sentences.drop (i - buffer_size)).take
    (min sentences.length (i + buffer_size + 1) - (i - buffer_size)))

def insertSortedRat (x : ℚ) : List ℚ → List ℚ
  | [] => [x]
  | y :: t => if x ≤ y then x :: y :: t else y :: insertSortedRat x t

def sortRats (l : List ℚ) : List ℚ := l.foldr insertSortedRat []

/-- Model of `np.percentile(ds, 95)` — linear interpolation on the ascending
sort — in exact rational arithmetic. -/
def percentile95 (ds : List ℚ) : ℚ :=
  let sorted := sortRats ds
  let pos : ℚ := ((sorted.length : ℚ) - 1) * (95 / 100)
  let i := pos.floor.toNat
  let lo := sorted.getD i 0
  let hi := sorted.getD (i + 1) lo
  lo + (pos - (pos.floor : ℚ)) * (hi - lo)

/-- `level4_semantic_splitting(text, ai_client=…, config=…,
similarity_drop_threshold=0.25, buffer_size=1)`.  Returns the chunk list
together with the log of `embed_texts` calls made (`[]` or the single batch
of combined windows), so that "no call to the injected embedding client" is
part of the function's observable result. -/
def level4_semantic_splitting (V : Type) [Inhabited V] (sim : V → V → ℚ)
    (text : String) (client : AIClient V)
    (config : Option ChunkingConfig := none)
    (similarity_drop_threshold : ℚ := 25 / 100) (buffer_size : Nat := 1) :
    List String × List (List String) :=
  if (splitSentences text).length ≤ 1 then ([text], [])
  else
    let cfg := config.getD {}
    let sentences := splitSentences text
    let combined_texts := (List.range sentences.length).map
        (combinedWindow sentences buffer_size)
    let embeddings := client.embed_texts combined_texts
    let distances := (List.range (sentences.length - 1)).map
        (fun i => 1 - sim (embeddings.getD i default)
          (embeddings.getD (i + 1) default))
    let effective_threshold :=
        if !distances.isEmpty then
          max similarity_drop_threshold (percentile95 distances)
        else similarity_drop_threshold
    let boundary_indices :=
        (0 :: ((List.range distances.length).filter
          (fun i => distances.getD i 0 > effective_threshold)).map (· + 1))
        ++ [sentences.length]
    let semantic_chunks := (boundary_indices.zip boundary_indices.tail).map
        (fun p =>
          ((sentences.drop p.1).take (p.2 - p.1),
           String.intercalate " " ((sentences.drop p.1).take (p.2 - p.1))))
    let final := (semantic_chunks.map (fun p =>
        if (p.2.length : Int) > cfg.chunk_size * 2 then
          _split_large_semantic_chunk p.2 p.1 cfg.chunk_size cfg.chunk_overlap
        else [p.2])).flatten
    (final.filter (fun c => pyStrip c != ""), [combined_texts])

/-- **C10.** Whenever the sentence segmentation (split after `；;。？！?!`,
blanks discarded) of the input yields at most one sentence, the semantic
splitter returns exactly the one-element list containing the original input
text and performs no call to the injected embedding client (its call log is
empty — and indeed the result is the same for every client and similarity
function). -/
theorem C10_single_sentence_passthrough (V : Type) [Inhabited V]
    (sim : V → V → ℚ) (text : String) (client : AIClient V)
    (config : Option ChunkingConfig) (thr : ℚ) (buf : Nat)
    (h : (splitSentences text).length ≤ 1) :
    level4_semantic_splitting V sim text client config thr buf
      = ([text], []) := by
  rw [level4_semantic_splitting, if_pos h]

/-- A concrete do-nothing client over `V = Unit` for witnesses. -/
def trivialClient : AIClient Unit where
  embed_texts := fun ts => ts.map (fun _ => ())
  chat_invoke := fun _ _ _ _ _ _ => ""

/-- Witness for C10: `"hello world"` has no terminal punctuation, hence a
single sentence. -/
theorem C10_witness :
    level4_semantic_splitting Unit (fun _ _ => 0) "hello world" trivialClient
        none (25 / 100) 1
      = (["hello world"], []) :=
  C10_single_sentence_passthrough Unit (fun _ _ => 0) "hello world"
    trivialClient none (25 / 100) 1 (by decide)

/-! ## Level 3: Python and PDF splitters, dispatch -/

/-- `str.lower()` (ASCII; no settled claim involves non-ASCII case). -/
def pyLower (s : String) : String := ⟨s.toList.map Char.toLower⟩

/-- `_split_python_code(text, cfg)`. -/
def _split_python_code (text : String) (cfg : ChunkingConfig) : List String :=
  _by_max_tokens
    (_split_on_separators text
      ["\n\n", "\nclass ", "\ndef ", "\nif __name__ == \x27__main__\x27:",
       "\n# ", "\n"]
      (decide (cfg.chunk_overlap > 0)))
    cfg.chunk_size cfg.chunk_overlap

/-- `\s*\n` with the regex's backtracking: consume through the *last* newline
of the maximal whitespace run, failing when the run holds none. -/
def wsThenNewline (s : List Char) : Option (List Char) :=
  match (s.takeWhile isPyWs).reverse.findIdx? (· == '\n') with
  | some j => some (s.drop ((s.takeWhile isPyWs).length - j))
  | none => none

/-- Case-insensitive literal match (for `re.IGNORECASE`). -/
def expectStrCI : List Char → List Char → Option (List Char)
  | [], s => some s
  | _ :: _, [] => none
  | p :: pt, c :: ct => if c.toLower == p then expectStrCI pt ct else none

def expectStr (pat s : List Char) : Option (List Char) :=
  if pat.isPrefixOf s then some (s.drop pat.length) else none

/-- The page-break alternative `\n\s*---\s*page\s*break\s*---\s*\n` of
`_split_pdf_text`'s `re.split` (case-insensitive). -/
def matchPageBreak (s : List Char) : Option (List Char) :=
  match s with
  | '\n' :: t =>
      (expectStr ['-', '-', '-'] (skipWs t)).bind fun r1 =>
      (expectStrCI ['p', 'a', 'g', 'e'] (skipWs r1)).bind fun r2 =>
      (expectStrCI ['b', 'r', 'e', 'a', 'k'] (skipWs r2)).bind fun r3 =>
      (expectStr ['-', '-', '-'] (skipWs r3)).bind fun r4 =>
      wsThenNewline r4
  | _ => none

/-- `re.split(r"\f|\n\s*---\s*page\s*break\s*---\s*\n", text, IGNORECASE)`:
scan left to right, trying `\f` then the page-break alternative. -/
def pdfPageSplitGo : Nat → List Char → List Char → List String
  | 0, acc, s => [(⟨acc.reverse ++ s⟩ : String)]
  | fuel + 1, acc, s =>
      match s with
      | [] => [(⟨acc.reverse⟩ : String)]
      | c :: t =>
          if c = '\x0c' then
            (⟨acc.reverse⟩ : String) :: pdfPageSplitGo fuel [] t
          else
            match matchPageBreak s with
            | some rest => (⟨acc.reverse⟩ : String) :: pdfPageSplitGo fuel [] rest
            | none => pdfPageSplitGo fuel (c :: acc) t

/-- `_split_pdf_text(text, cfg)`. -/
def _split_pdf_text (text : String) (cfg : ChunkingConfig) : List String :=
  ((pdfPageSplitGo (text.toList.length + 1) [] text.toList).map
    (fun page => _by_max_tokens
      (_split_on_separators page ["\n\n", "\n", " "]
        (decide (cfg.chunk_overlap > 0)))
      cfg.chunk_size cfg.chunk_overlap)).flatten

/-- `level3_document_specific_splitting(text, document_type=…, config=…,
doc_options=…)`. -/
def level3_document_specific_splitting (text : String) (document_type : String)
    (config : Option ChunkingConfig := none)
    (doc_options : Option MdOptions := none) : List String :=
  if pyLower document_type = "py" ∨ pyLower document_type = "python" then
    _split_python_code text (config.getD {})
  else if pyLower document_type = "md" ∨ pyLower document_type = "markdown" then
    _split_markdown text (config.getD {}) doc_options
  else if pyLower document_type = "pdf" then
    _split_pdf_text text (config.getD {})
  else level2_recursive_character_splitting text (some (config.getD {}))

/-! ## Level 5: agentic splitting -/

/-- The fixed system instruction `AGENT_SPLIT_SYSTEM`. -/
def AGENT_SPLIT_SYSTEM : String :=
  "你是一个专业的文档切分专家，你擅长根据用户提供的文字进行分段，" ++
  "分段的目的是进行更好的RAG召回，你需要根据语义自定义切块" ++
  "并返回一个JSON数组，数组中的每个元素是一个字符串，表示一个段落。"

/-- `_split_text_into_sentences` — same segmentation as Level 4. -/
def _split_text_into_sentences (text : String) : List String :=
  splitSentences text

/-- `[一-鿿]`. -/
def isCjk (c : Char) : Bool := decide (0x4e00 ≤ c.toNat ∧ c.toNat ≤ 0x9fff)

/-- `_estimate_token_count`: CJK characters count 1.5, others 0.3; the float
sum is modelled in exact rationals and `int(...)` as `floor` (the estimate is
non-negative). -/
def _estimate_token_count (text : String) : Int :=
  (((text.toList.filter isCjk).length : ℚ) * (15 / 10)
    + ((text.toList.length - (text.toList.filter isCjk).length : Int) : ℚ)
      * (3 / 10)).floor

/-- The batching loop of `_batch_sentences_for_token_limit`. -/
def batchGo (max_tokens : Int) (batches : List (List String))
    (current : List String) (current_tokens : Int) :
    List String → List (List String)
  | [] => if current ≠ [] then batches ++ [current] else batches
  | sentence :: rest =>
      if current_tokens + _estimate_token_count sentence > max_tokens ∧
          current ≠ [] then
        batchGo max_tokens (batches ++ [current]) [sentence]
          (_estimate_token_count sentence) rest
      else
        batchGo max_tokens batches (current ++ [sentence])
          (current_tokens + _estimate_token_count sentence) rest

/-- `_batch_sentences_for_token_limit(sentences, max_tokens=8000)`. -/
def _batch_sentences_for_token_limit (sentences : List String)
    (max_tokens : Int := 8000) : List (List String) :=
  batchGo max_tokens [] [] 0 sentences

/-- `re.search(r"\[.*\]", content, re.DOTALL)`: greedy — the span from the
first `[` to the last `]` following it. -/
def extractBracketSpan (content : String) : Option String :=
  match content.toList.findIdx? (· == '[') with
  | none => none
  | some i =>
      match (content.toList.drop i).reverse.findIdx? (· == ']') with
      | none => none
      | some j =>
          some (⟨(content.toList.drop i).take
            ((content.toList.drop i).length - j)⟩ : String)

/-- One JSON string body (after the opening quote).  Part of the simplified
`json.loads` model below. -/
def jsonStringGo (acc : List Char) : List Char → Option (String × List Char)
  | '"' :: t => some ((⟨acc.reverse⟩ : String), t)
  | '\\' :: '"' :: t => jsonStringGo ('"' :: acc) t
  | '\\' :: '\\' :: t => jsonStringGo ('\\' :: acc) t
  | '\\' :: 'n' :: t => jsonStringGo ('\n' :: acc) t
  | '\\' :: 't' :: t => jsonStringGo ('\t' :: acc) t
  | '\\' :: 'r' :: t => jsonStringGo ('\r' :: acc) t
  | '\\' :: _ => none
  | c :: t => jsonStringGo (c :: acc) t
  | [] => none

/-- Elements of a JSON array: strings or integer literals, comma-separated,
closed by `]` with nothing but whitespace after (the span handed over ends at
the last `]`). -/
def jsonElems : Nat → List Char → Option (List String)
  | 0, _ => none
  | fuel + 1, s =>
      match skipWs s with
      | '"' :: t =>
          match jsonStringGo [] t with
          | none => none
          | some (str, rest) =>
              match skipWs rest with
              | ',' :: r2 => (jsonElems fuel r2).map (str :: ·)
              | ']' :: r2 => if (skipWs r2).isEmpty then some [str] else none
              | _ => none
      | c :: rest0 =>
          if c.isDigit || c == '-' then
            let s2 := if c == '-' then rest0 else c :: rest0
            let digits := s2.takeWhile (·.isDigit)
            if digits.isEmpty then none
            else
              match skipWs (s2.drop digits.length) with
              | ',' :: r2 => (jsonElems fuel r2).map
                  ((⟨if c == '-' then '-' :: digits else digits⟩ : String) :: ·)
              | ']' :: r2 =>
                  if (skipWs r2).isEmpty then
                    some [(⟨if c == '-' then '-' :: digits else digits⟩ : String)]
                  else none
              | _ => none
          else none
      | [] => none

/-- Simplified model of `json.loads` + the `str(x)` coercion of
`_merge_chunks_with_llm`, restricted to arrays of double-quoted strings
(common escapes) and integer literals; every other input is a parse failure,
sending the caller to its fallback branch. -/
def jsonParseArr (s : String) : Option (List String) :=
  match skipWs s.toList with
  | '[' :: t =>
      match skipWs t with
      | ']' :: r => if (skipWs r).isEmpty then some [] else none
      | _ => jsonElems (s.toList.length + 1) t
  | _ => none

/-- `_merge_chunks_with_llm(client, chunks_batch, cfg, …)`: one chat call,
bracket-span extraction, JSON parse, recursive-splitting fallback on
failure. -/
def _merge_chunks_with_llm (V : Type) (client : AIClient V)
    (chunks_batch : List String) (cfg : ChunkingConfig)
    (system_prompt : String) (chunking_prompt : Option String)
    (llm_model : Option String) (enable_thinking : Bool) (temperature : ℚ)
    (extra_body : Option String) : List String :=
  match extractBracketSpan (client.chat_invoke
      [("system", system_prompt),
       ("user",
        (chunking_prompt.getD
          "Split the following text into chunks respecting a target size of ")
        ++ toString cfg.chunk_size ++ " characters with an overlap of "
        ++ toString cfg.chunk_overlap ++ ". " ++ "Output JSON array only.\n\n"
        ++ concatStrs chunks_batch)]
      llm_model 10000 enable_thinking temperature extra_body) with
  | some span =>
      match jsonParseArr span with
      | some arr => arr
      | none => level2_recursive_character_splitting (concatStrs chunks_batch)
          (some cfg)
  | none => level2_recursive_character_splitting (concatStrs chunks_batch)
      (some cfg)

/-- `level5_agentic_splitting(text, ai_client=…, config=…, …)`. -/
def level5_agentic_splitting (V : Type) (text : String) (client : AIClient V)
    (config : Option ChunkingConfig := none)
    (system_prompt : Option String := none)
    (chunking_prompt : Option String := none)
    (llm_model : Option String := none) (enable_thinking : Bool := false)
    (temperature : ℚ := 0) (extra_body : Option String := none) :
    List String :=
  if (_split_text_into_sentences text).isEmpty then [text]
  else
    let cfg := config.getD {}
    let all_chunks :=
      ((_batch_sentences_for_token_limit (_split_text_into_sentences text)
          8000).map
        (fun batch => _merge_chunks_with_llm V client batch cfg
          (system_prompt.getD AGENT_SPLIT_SYSTEM)
          (some (chunking_prompt.getD
            "Split the following text into chunks respecting a target size of "))
          llm_model enable_thinking temperature extra_body)).flatten
    let all_chunks2 :=
      if 100 < all_chunks.length then
        level2_recursive_character_splitting (nnJoin all_chunks) (some cfg)
      else all_chunks
    (all_chunks2.map (fun c =>
      if (c.length : Int) > cfg.chunk_size * 2 then
        _windowed c cfg.chunk_size cfg.chunk_overlap
      else [c])).flatten

/-! ## Bonus: alternative representations -/

/-- A full line matching `^(#{1,6}\s+.*)$` (MULTILINE). -/
def isOutlineHeading (l : List Char) : Bool :=
  let hashes := l.takeWhile (· == '#')
  decide (1 ≤ hashes.length ∧ hashes.length ≤ 6) &&
    (match l.drop hashes.length with
     | c :: _ => isPyWs c
     | [] => false)

def isWordPlusMinus (c : Char) : Bool :=
  c.isAlphanum || c == '_' || c == '+' || c == '-'

/-- Index of the first occurrence of `pat`. -/
def findSubIdx (pat : List Char) : List Char → Option Nat
  | [] => if pat.isEmpty then some 0 else none
  | s@(_ :: t) =>
      if pat.isPrefixOf s then some 0
      else (findSubIdx pat t).map (· + 1)

/-- `re.findall(r"```[\w+-]*\n[\s\S]*?```", text)`: scan for an opening
triple-backtick, an info string of word/`+`/`-` characters, a newline, then
lazily up to the next triple-backtick. -/
def codeBlocksGo : Nat → List Char → List String
  | 0, _ => []
  | fuel + 1, s =>
      match s with
      | [] => []
      | _ :: t =>
          if ['`', '`', '`'].isPrefixOf s then
            match (s.drop (3 + ((s.drop 3).takeWhile isWordPlusMinus).length)) with
            | '\n' :: body =>
                match findSubIdx ['`', '`', '`'] body with
                | some k =>
                    (⟨s.take (3 + ((s.drop 3).takeWhile isWordPlusMinus).length
                        + 1 + k + 3)⟩ : String)
                      :: codeBlocksGo fuel
                        (s.drop (3 + ((s.drop 3).takeWhile isWordPlusMinus).length
                          + 1 + k + 3))
                | none => codeBlocksGo fuel t
            | _ => codeBlocksGo fuel t
          else codeBlocksGo fuel t

def isTableClassChar (c : Char) : Bool :=
  c == '-' || c == ':' || c == '|' || isPyWs c

/-- Index of the last `|` in the class run, provided it is not the leading
character (the `[-:|\s]+` before it must be non-empty). -/
def lastBarIdxGe1 (R : List Char) : Option Nat :=
  match R.reverse.findIdx? (· == '|') with
  | none => none
  | some j => if 1 ≤ R.length - 1 - j then some (R.length - 1 - j) else none

/-- Offset of the first `\n\n`, or the end (`\Z`). -/
def firstDoubleNl (s : List Char) : Nat :=
  match findSubIdx ['\n', '\n'] s with
  | some j => j
  | none => s.length

/-- One match of `\n\|.+\|\n\|[-:|\s]+\|[\s\S]*?(?=\n\n|\Z)` at the current
position; returns the matched length. -/
def matchBonusTable (s : List Char) : Option Nat :=
  match s with
  | '\n' :: r1 =>
      if 3 ≤ (r1.takeWhile (fun c => !(c == '\n'))).length ∧
          (r1.takeWhile (fun c => !(c == '\n'))).headD ' ' = '|' ∧
          (r1.takeWhile (fun c => !(c == '\n'))).getLastD ' ' = '|' then
        match r1.drop (r1.takeWhile (fun c => !(c == '\n'))).length with
        | '\n' :: r2 =>
            match r2 with
            | '|' :: r3 =>
                match lastBarIdxGe1 (r3.takeWhile isTableClassChar) with
                | some k =>
                    some ((1 + (r1.takeWhile (fun c => !(c == '\n'))).length
                        + 1 + 1 + (k + 1))
                      + firstDoubleNl (s.drop
                          (1 + (r1.takeWhile (fun c => !(c == '\n'))).length
                            + 1 + 1 + (k + 1))))
                | none => none
            | _ => none
        | _ => none
      else none
  | _ => none

/-- Non-overlapping scan for the table regex. -/
def bonusTablesGo : Nat → List Char → List String
  | 0, _ => []
  | fuel + 1, s =>
      match s with
      | [] => []
      | _ :: t =>
          match matchBonusTable s with
          | some len =>
              (⟨s.take len⟩ : String) :: bonusTablesGo fuel (s.drop len)
          | none => bonusTablesGo fuel t

/-- `bonus_alternative_representation(text, include_outline=…,
include_code_blocks=…, include_tables=…)`. -/
def bonus_alternative_representation (text : String)
    (include_outline include_code_blocks include_tables : Bool) :
    List (String × String) :=
  (if include_outline then
    (if !((pySplit text "\n").filter (fun l => isOutlineHeading l.toList)).isEmpty
     then [("outline", joinLines
        ((pySplit text "\n").filter (fun l => isOutlineHeading l.toList)))]
     else [])
   else []) ++
  (if include_code_blocks then
    ((codeBlocksGo (text.toList.length + 1) text.toList).enum.map
      (fun p => ("code_block_" ++ toString p.1, p.2)))
   else []) ++
  (if include_tables then
    ((bonusTablesGo (text.toList.length + 1) text.toList).enum.map
      (fun p => ("table_" ++ toString p.1, p.2)))
   else [])

/-! ## High-level dispatcher `chunk_text` -/

/-- `{"chunks": [...], "derivatives": [...]}`. -/
structure ChunkResult where
  chunks : List String
  derivatives : List (String × String)
deriving Repr, DecidableEq

/-- `chunking_config["recursive_splitting_config"]`. -/
structure RecursiveSplittingConfig where
  separators : Option (List String) := none
deriving Repr, DecidableEq

/-- `chunking_config["custom_delimiter_config"]`. -/
structure CustomDelimiterConfig where
  delimiter : Option String := none
deriving Repr, DecidableEq

/-- `chunking_config["document_specific_config"]`. -/
structure DocumentSpecificConfig where
  document_type : Option String := none
  preserve_headers : Bool := true
  preserve_code_blocks : Bool := true
  preserve_lists : Bool := true
deriving Repr, DecidableEq

/-- `chunking_config["semantic_splitting_config"]`. -/
structure SemanticSplittingConfig where
  embedding_model : Option String := none
  similarity_threshold : Option ℚ := none
  buffer_size : Nat := 1
deriving Repr, DecidableEq

/-- `chunking_config["agentic_splitting_config"]` (`extra_body` kept as an
opaque blob). -/
structure AgenticSplittingConfig where
  llm_model : Option String := none
  chunking_prompt : Option String := none
  enable_thinking : Bool := false
  temperature : ℚ := 0
  extra_body : Option String := none
deriving Repr, DecidableEq

/-- `chunking_config["alternative_representation_config"]`. -/
structure AlternativeRepresentationConfig where
  include_outline : Bool := true
  include_code_blocks : Bool := true
  include_tables : Bool := true
deriving Repr, DecidableEq

/-- The recognized keys of `chunking_config`. -/
structure ChunkingConfigDict where
  recursive_splitting_config : Option RecursiveSplittingConfig := none
  custom_delimiter_config : Option CustomDelimiterConfig := none
  document_specific_config : Option DocumentSpecificConfig := none
  semantic_splitting_config : Option SemanticSplittingConfig := none
  agentic_splitting_config : Option AgenticSplittingConfig := none
  alternative_representation_config : Option AlternativeRepresentationConfig := none
deriving Repr, DecidableEq

/-- `(chunking_strategy_value or "").strip() or "auto"`. -/
def normalizeStrategy (s : String) : String :=
  if pyStrip s = "" then "auto" else pyStrip s

/-- The strategy branch chain of `chunk_text` (lines 921-1021), after the
early `enable_chunking` return: `"auto"` is first rewritten to
`"semantic_splitting"`, then the chain of string comparisons runs in source
order; `mkClient e t` models the `AIClient(...)` constructor with the given
embedding/text model overrides. -/
def chunkDispatch (V : Type) [Inhabited V] (sim : V → V → ℚ) (text : String)
    (strategy0 : String) (chunk_size chunk_overlap : Int)
    (cfg_dict : ChunkingConfigDict) (client : AIClient V)
    (mkClient : Option String → Option String → AIClient V) : ChunkResult :=
  let cfg : ChunkingConfig :=
    { chunk_size := chunk_size, chunk_overlap := chunk_overlap }
  let strategy := if strategy0 = "auto" then "semantic_splitting" else strategy0
  if strategy = "character_splitting" then
    { chunks := level1_character_splitting text (some cfg), derivatives := [] }
  else if strategy = "recursive_character_splitting" then
    { chunks := level2_recursive_character_splitting text
        (some (match (cfg_dict.recursive_splitting_config.getD {}).separators with
          | some seps =>
              if !seps.isEmpty then
                { chunk_size := chunk_size, chunk_overlap := chunk_overlap,
                  separators := seps }
              else cfg
          | none => cfg)),
      derivatives := [] }
  else if strategy = "custom_delimiter_splitting" then
    { chunks := level6_custom_delimiter_splitting text
        ((cfg_dict.custom_delimiter_config.getD {}).delimiter.getD "")
        (some cfg),
      derivatives := [] }
  else if strategy = "custom_delimiter_splitting_with_chunk_size_and_leave_table_alone" then
    -- `none` is the table splitter's uncaught `UnicodeDecodeError`, which in
    -- the source propagates out of `chunk_text`; no settled claim observes
    -- this branch on a failing delimiter, and `.getD []` keeps the
    -- dispatcher's result type total.
    { chunks := (custom_delimiter_splitting_with_chunk_size_and_leave_table_alone
        text ((cfg_dict.custom_delimiter_config.getD {}).delimiter.getD "")
        (some cfg)).getD [],
      derivatives := [] }
  else if strategy = "document_specific_splitting" then
    { chunks := level3_document_specific_splitting text
        (if pyStrip ((cfg_dict.document_specific_config.getD {}).document_type.getD "")
            = "" then "markdown"
         else pyStrip ((cfg_dict.document_specific_config.getD {}).document_type.getD ""))
        (some cfg)
        (some { preserve_headers :=
                  (cfg_dict.document_specific_config.getD {}).preserve_headers,
                preserve_code_blocks :=
                  (cfg_dict.document_specific_config.getD {}).preserve_code_blocks,
                preserve_lists :=
                  (cfg_dict.document_specific_config.getD {}).preserve_lists }),
      derivatives := [] }
  else if strategy = "semantic_splitting" then
    { chunks := (level4_semantic_splitting V sim text
        (match (cfg_dict.semantic_splitting_config.getD {}).embedding_model with
         | some m => if m ≠ "" then mkClient (some m) none else client
         | none => client)
        (some cfg)
        ((cfg_dict.semantic_splitting_config.getD {}).similarity_threshold.getD
          (25 / 100))
        (cfg_dict.semantic_splitting_config.getD {}).buffer_size).1,
      derivatives := [] }
  else if strategy = "agentic_splitting" then
    { chunks := level5_agentic_splitting V text
        (match (cfg_dict.agentic_splitting_config.getD {}).llm_model with
         | some m =>
            if m ≠ "" then mkClient (some client.embedding_model_name) (some m)
            else client
         | none => client)
        (some cfg) none
        (cfg_dict.agentic_splitting_config.getD {}).chunking_prompt
        (cfg_dict.agentic_splitting_config.getD {}).llm_model
        (cfg_dict.agentic_splitting_config.getD {}).enable_thinking
        (cfg_dict.agentic_splitting_config.getD {}).temperature
        (cfg_dict.agentic_splitting_config.getD {}).extra_body,
      derivatives := [] }
  else if strategy = "alternative_representation_chunking" then
    { chunks := level2_recursive_character_splitting text (some cfg),
      derivatives := bonus_alternative_representation text
        (cfg_dict.alternative_representation_config.getD {}).include_outline
        (cfg_dict.alternative_representation_config.getD {}).include_code_blocks
        (cfg_dict.alternative_representation_config.getD {}).include_tables }
  else
    { chunks := level2_recursive_character_splitting text (some cfg),
      derivatives := [] }

/-- `chunk_text(text, enable_chunking=…, chunking_strategy_value=…,
chunk_size=…, chunk_overlap=…, chunking_config=…, ai_client=…)`; `mkClient`
models the `AIClient` constructor used for the default client and the
per-strategy model overrides. -/
def chunk_text (V : Type) [Inhabited V] (sim : V → V → ℚ) (text : String)
    (enable_chunking : Bool) (chunking_strategy_value : String)
    (chunk_size chunk_overlap : Int)
    (chunking_config : Option ChunkingConfigDict)
    (ai_client : Option (AIClient V))
    (mkClient : Option String → Option String → AIClient V) : ChunkResult :=
  if !enable_chunking then { chunks := [text], derivatives := [] }
  else
    chunkDispatch V sim text (normalizeStrategy chunking_strategy_value)
      chunk_size chunk_overlap (chunking_config.getD {})
      (ai_client.getD (mkClient none none)) mkClient

/-- **C3.** With `enable_chunking = false`, the dispatcher returns exactly one
chunk equal to the input text and an empty derivatives list, for every text,
strategy, size, overlap, config and client — the early return fires before
any strategy (or even the default client construction) is reached. -/
theorem C3_disabled_passthrough (V : Type) [Inhabited V] (sim : V → V → ℚ)
    (text strategy : String) (chunk_size chunk_overlap : Int)
    (chunking_config : Option ChunkingConfigDict)
    (ai_client : Option (AIClient V))
    (mkClient : Option String → Option String → AIClient V) :
    chunk_text V sim text false strategy chunk_size chunk_overlap
        chunking_config ai_client mkClient
      = { chunks := [text], derivatives := [] } := rfl

/-- The strategy identifiers the dispatcher's branch chain recognizes. -/
def recognizedStrategies : List String :=
  ["auto", "character_splitting", "recursive_character_splitting",
   "custom_delimiter_splitting",
   "custom_delimiter_splitting_with_chunk_size_and_leave_table_alone",
   "document_specific_splitting", "semantic_splitting", "agentic_splitting",
   "alternative_representation_chunking"]

/-- Unrecognized strategies reach the final fallback branch. -/
theorem chunkDispatch_fallback (V : Type) [Inhabited V] (sim : V → V → ℚ)
    (text : String) (s : String) (cs co : Int) (cfgd : ChunkingConfigDict)
    (client : AIClient V)
    (mk : Option String → Option String → AIClient V)
    (hs : s ∉ recognizedStrategies) :
    chunkDispatch V sim text s cs co cfgd client mk
      = { chunks := level2_recursive_character_splitting text
            (some { chunk_size := cs, chunk_overlap := co }),
          derivatives := [] } := by
  have h0 : ¬ s = "auto" := fun h => hs (by rw [h]; decide)
  have h1 : ¬ s = "character_splitting" := fun h => hs (by rw [h]; decide)
  have h2 : ¬ s = "recursive_character_splitting" := fun h => hs (by rw [h]; decide)
  have h3 : ¬ s = "custom_delimiter_splitting" := fun h => hs (by rw [h]; decide)
  have h4 : ¬ s = "custom_delimiter_splitting_with_chunk_size_and_leave_table_alone" :=
    fun h => hs (by rw [h]; decide)
  have h5 : ¬ s = "document_specific_splitting" := fun h => hs (by rw [h]; decide)
  have h6 : ¬ s = "semantic_splitting" := fun h => hs (by rw [h]; decide)
  have h7 : ¬ s = "agentic_splitting" := fun h => hs (by rw [h]; decide)
  have h8 : ¬ s = "alternative_representation_chunking" :=
    fun h => hs (by rw [h]; decide)
  rw [chunkDispatch]
  simp only [if_neg h0, if_neg h1, if_neg h2, if_neg h3, if_neg h4, if_neg h5,
    if_neg h6, if_neg h7, if_neg h8]

/-- The explicit `recursive_character_splitting` branch, when the config
carries no separator override. -/
theorem chunkDispatch_recursive_no_override (V : Type) [Inhabited V]
    (sim : V → V → ℚ) (text : String) (cs co : Int)
    (cfgd : ChunkingConfigDict) (client : AIClient V)
    (mk : Option String → Option String → AIClient V)
    (hnosep : (cfgd.recursive_splitting_config.getD {}).separators = none ∨
      (cfgd.recursive_splitting_config.getD {}).separators = some []) :
    chunkDispatch V sim text "recursive_character_splitting" cs co cfgd
        client mk
      = { chunks := level2_recursive_character_splitting text
            (some { chunk_size := cs, chunk_overlap := co }),
          derivatives := [] } := by
  have hbranch : chunkDispatch V sim text "recursive_character_splitting" cs co
      cfgd client mk
      = { chunks := level2_recursive_character_splitting text
            (some (match (cfgd.recursive_splitting_config.getD {}).separators with
              | some seps =>
                  if !seps.isEmpty then
                    { chunk_size := cs, chunk_overlap := co, separators := seps }
                  else { chunk_size := cs, chunk_overlap := co }
              | none => { chunk_size := cs, chunk_overlap := co })),
          derivatives := [] } := rfl
  rw [hbranch]
  rcases hnosep with h | h <;> (rw [h]; try exact rfl)

/-- **C7 (amended).** (i) Strategy `"auto"` gives output identical to
`"semantic_splitting"` with the same arguments, for every input, config and
client.  (ii) A strategy outside the recognized set gives output identical to
`"recursive_character_splitting"` with the same arguments *provided* the
config carries no `recursive_splitting_config.separators` override — the
explicit strategy applies such an override while the fallback ignores it. -/
theorem C7_dispatcher_equivalences (V : Type) [Inhabited V] (sim : V → V → ℚ)
    (text : String) (cs co : Int) (cfgd : Option ChunkingConfigDict)
    (cl : Option (AIClient V))
    (mk : Option String → Option String → AIClient V) (strat : String)
    (hs1 : pyStrip strat ∉ recognizedStrategies) (hs2 : pyStrip strat ≠ "")
    (hnosep : ((cfgd.getD {}).recursive_splitting_config.getD {}).separators
        = none ∨
      ((cfgd.getD {}).recursive_splitting_config.getD {}).separators
        = some []) :
    chunk_text V sim text true "auto" cs co cfgd cl mk
        = chunk_text V sim text true "semantic_splitting" cs co cfgd cl mk ∧
    chunk_text V sim text true strat cs co cfgd cl mk
        = chunk_text V sim text true "recursive_character_splitting" cs co
            cfgd cl mk := by
  constructor
  · rfl
  · show chunkDispatch V sim text (normalizeStrategy strat) cs co _ _ mk = _
    rw [show normalizeStrategy strat = pyStrip strat from
      by rw [normalizeStrategy, if_neg hs2]]
    rw [chunkDispatch_fallback V sim text (pyStrip strat) cs co _ _ mk hs1]
    rw [show chunk_text V sim text true "recursive_character_splitting" cs co
          cfgd cl mk
        = chunkDispatch V sim text "recursive_character_splitting" cs co
          (cfgd.getD {}) (cl.getD (mk none none)) mk from rfl]
    rw [chunkDispatch_recursive_no_override V sim text cs co _ _ mk hnosep]

/-- A trivial client factory over `V = Unit` for concrete instantiations. -/
def mkTrivialClient : Option String → Option String → AIClient Unit :=
  fun _ _ => trivialClient

/-- Witness for C7's amended theorem at strategy `"foo"` with no separator
override. -/
theorem C7_witness :
    chunk_text Unit (fun _ _ => 0) "a b" true "auto" 10 0 none none
        mkTrivialClient
      = chunk_text Unit (fun _ _ => 0) "a b" true "semantic_splitting" 10 0
          none none mkTrivialClient ∧
    chunk_text Unit (fun _ _ => 0) "a b" true "foo" 10 0 none none
        mkTrivialClient
      = chunk_text Unit (fun _ _ => 0) "a b" true
          "recursive_character_splitting" 10 0 none none mkTrivialClient :=
  C7_dispatcher_equivalences Unit (fun _ _ => 0) "a b" 10 0 none none
    mkTrivialClient "foo" (by decide) (by decide) (Or.inl rfl)

/-- **C7 counterexample.** With a `recursive_splitting_config.separators`
override (`["b"]`), the unrecognized strategy `"foo"` falls back to
`level2_recursive_character_splitting` with the *default* separators
(chunks `["ab"]`), while the explicit `"recursive_character_splitting"`
strategy applies the override (chunks `["a "]`): the outputs differ, so the
claimed equivalence for unrecognized strategies fails with the same
arguments. -/
theorem C7_counterexample :
    chunk_text Unit (fun _ _ => 0) "a b" true "foo" 10 0
        (some { recursive_splitting_config := some { separators := some ["b"] } })
        none mkTrivialClient
      ≠ chunk_text Unit (fun _ _ => 0) "a b" true
          "recursive_character_splitting" 10 0
          (some { recursive_splitting_config := some { separators := some ["b"] } })
          none mkTrivialClient := by decide

end Chunking
